import Mathlib

/-!
# Verification of the `pr-review-slo` core

Shallow embedding of the calendar / deadline / error-budget engine of the
`pr-review-slo` repository (`src/business-time.ts`, `src/slo.ts`) together with
the superseded per-minute reference implementation of `countBusinessMinutes`.

Modelling conventions:

* A point in time is an integer number of **whole minutes** since the epoch
  (`ℤ`); the runtime-local clock is UTC, so the calendar components of a raw
  `Date` are its UTC components.  All inputs of interest are whole minutes, so
  the second/millisecond rounding in the sources is the identity here.
* An IANA timezone is modelled by the constant offset (in minutes) that
  `toLocaleString` round-tripping subtracts, i.e. local reading =
  `t - tzOffset`.  Lexicographic comparison of `YYYY-MM-DD` strings coincides
  with the numeric order of day indices, so ISO dates are embedded as day
  indices (`ℤ`, days since the epoch; day 0 = 1970-01-01, a Thursday, whose
  JS `getDay()` is 4).
* `createBusinessTimeContext` awaits an external holiday fetch; that
  collaborator is externalized: the fetched holiday set is a parameter.
* The `while` loops of `addBusinessDays` / `getNextBusinessTime` need not
  terminate (e.g. with an empty business-weekday list), so they are embedded
  with explicit fuel, `none` standing for divergence.  The wrapper
  `addBusinessDays` runs the loop with a fuel that provably suffices for any
  context with a genuine business weekday.
-/

/-- `config.businessHours` of `src/types.ts`: local start hour, local end hour
(`end` in the source; renamed, `end` is reserved), and the constant offset of
the configured timezone. -/
structure BusinessHours where
  start : ℤ
  endHour : ℤ
  tzOffset : ℤ
deriving DecidableEq, Repr

/-- One entry of `config.sizeBuckets` (`src/types.ts`): LOC ceiling and the
allowed number of business days (a JS `number`, possibly fractional). -/
structure SizeBucket where
  maxLoc : ℤ
  businessDays : ℚ
deriving DecidableEq, Repr

/-- `config.sizeBuckets` of `src/types.ts`: exactly the two named buckets. -/
structure SizeBuckets where
  small : SizeBucket
  medium : SizeBucket
deriving DecidableEq, Repr

/-- `config.slo` of `src/types.ts`. -/
structure SloSettings where
  target : ℚ
  windowDays : ℤ
deriving DecidableEq, Repr

/-- The parts of `Config` (`src/types.ts`) the core computations read. -/
structure Config where
  businessHours : BusinessHours
  businessDays : List ℤ
  slo : SloSettings
  sizeBuckets : SizeBuckets
deriving DecidableEq, Repr

/-- `PTOInterval` (`src/types.ts`): inclusive ISO start/end dates, embedded as
day indices (`end` renamed to `stop`). -/
structure PTOInterval where
  start : ℤ
  stop : ℤ
deriving DecidableEq, Repr

/-- `BusinessTimeContext` (`src/business-time.ts`). -/
structure BusinessTimeContext where
  config : Config
  holidays : List ℤ
  ptoIntervals : List PTOInterval
deriving DecidableEq, Repr

/-- `createBusinessTimeContext` (`src/business-time.ts` lines 10-23).  The
awaited `getHolidaysForRange` network fetch is an external collaborator; its
result is the `holidays` argument.  The function performs no validation of the
configuration and has no failure path. -/
def createBusinessTimeContext (config : Config) (ptoIntervals : List PTOInterval)
    (holidays : List ℤ) : BusinessTimeContext :=
  { config := config, holidays := holidays, ptoIntervals := ptoIntervals }

/-- UTC calendar day of a minute, as used by `toISOString().slice(0, 10)`. -/
def utcDay (t : ℤ) : ℤ := t / 1440

/-- Calendar day of a minute in the configured timezone (`toTimezone` plus
date formatting). -/
def tzDay (t : ℤ) (bh : BusinessHours) : ℤ := (t - bh.tzOffset) / 1440

/-- Minute-of-day of a minute in the configured timezone. -/
def tzTimeOfDay (t : ℤ) (bh : BusinessHours) : ℤ := (t - bh.tzOffset) % 1440

/-- `getHours()` of a minute read in the configured timezone. -/
def tzHour (t : ℤ) (bh : BusinessHours) : ℤ := tzTimeOfDay t bh / 60

/-- `tzDate.getDay() || 7` (`src/business-time.ts` line 37): ISO weekday 1-7,
Monday = 1.  Day 0 of the embedding is a Thursday (`getDay()` = 4). -/
def dayOfWeek (d : ℤ) : ℤ := if (d + 4) % 7 = 0 then 7 else (d + 4) % 7

/-- `isHoliday` (`src/holidays.ts` lines 102-105): membership of the day's ISO
date in the fetched holiday set. -/
def isHoliday (d : ℤ) (holidays : List ℤ) : Bool := holidays.contains d

/-- `isBusinessDay` (`src/business-time.ts` lines 35-50): configured weekday
and not a holiday, both on the timezone-local calendar day. -/
def isBusinessDay (t : ℤ) (ctx : BusinessTimeContext) : Bool :=
  ctx.config.businessDays.contains (dayOfWeek (tzDay t ctx.config.businessHours)) &&
    !isHoliday (tzDay t ctx.config.businessHours) ctx.holidays

/-- `isPTO` (`src/business-time.ts` lines 52-62).  Note the source keys the
comparison on `date.toISOString()`, i.e. the **UTC** calendar day, not the
timezone-local one. -/
def isPTO (t : ℤ) (ptoIntervals : List PTOInterval) : Bool :=
  ptoIntervals.any fun pto => decide (pto.start ≤ utcDay t) && decide (utcDay t ≤ pto.stop)

/-- `isBusinessMinute` (`src/business-time.ts` lines 64-83). -/
def isBusinessMinute (t : ℤ) (ctx : BusinessTimeContext) : Bool :=
  isBusinessDay t ctx &&
    decide (ctx.config.businessHours.start ≤ tzHour t ctx.config.businessHours) &&
    decide (tzHour t ctx.config.businessHours < ctx.config.businessHours.endHour) &&
    !isPTO t ctx.ptoIntervals

/-- The minute loop of the superseded reference `countBusinessMinutes`
(`src/unnamed/part_004` lines 101-106): scan every whole minute of
`[cur, cur + n)`, accumulating `count`; the loop guard `current < end` makes
the iteration count `(end - current).toNat`, passed here as the structural
argument `n`.  (At whole-minute inputs the round-up at lines 93-99 is the
identity.) -/
def countMinutesGo (ctx : BusinessTimeContext) (count : ℕ) (cur : ℤ) : ℕ → ℕ
  | 0 => count
  | n + 1 =>
    countMinutesGo ctx (count + if isBusinessMinute cur ctx then 1 else 0) (cur + 1) n

/-- Superseded reference implementation of `countBusinessMinutes`
(`src/unnamed/part_004` lines 85-109): per-minute loop. -/
def countBusinessMinutesRef (start stop : ℤ) (ctx : BusinessTimeContext) : ℕ :=
  if start ≥ stop then 0 else countMinutesGo ctx 0 start (stop - start).toNat

/-- `minutesPerBusinessDay` (`src/business-time.ts` line 93). -/
def minutesPerBusinessDay (bh : BusinessHours) : ℤ := (bh.endHour - bh.start) * 60

/-- `getBusinessMinutesForDay` (`src/business-time.ts` lines 122-137): the
clamped minutes-of-day window of one partial day, 0 on non-business/PTO days.
`fromMinutes`/`toMinutes` are the source's `fromHour * 60 + fromMinute` and
`toHour * 60 + toMinute`. -/
def getBusinessMinutesForDay (t fromMinutes toMinutes : ℤ) (ctx : BusinessTimeContext) : ℤ :=
  if !isBusinessDay t ctx || isPTO t ctx.ptoIntervals then 0
  else
    max 0 (min toMinutes (ctx.config.businessHours.endHour * 60) -
      max fromMinutes (ctx.config.businessHours.start * 60))

/-- The whole-days `while` loop of `countBusinessMinutes`
(`src/business-time.ts` lines 160-168): step `current` a civil day at a time
while its local date is before the end date, accumulating
`minutesPerBusinessDay` for qualifying days into `count`.  Each step advances
the local date by exactly one, so the guard `format(current) < endDateStr`
makes the iteration count `(endDay - tzDay current).toNat`, passed as the
structural argument `n`. -/
def middleDaysGo (ctx : BusinessTimeContext) (count : ℤ) (cur : ℤ) : ℕ → ℤ
  | 0 => count
  | n + 1 =>
    middleDaysGo ctx
      (count +
        if isBusinessDay cur ctx && !isPTO cur ctx.ptoIntervals then
          minutesPerBusinessDay ctx.config.businessHours
        else 0)
      (cur + 1440) n

/-- Current `countBusinessMinutes` (`src/business-time.ts` lines 85-174):
closed-form day decomposition (partial first day, whole days, partial last
day).  Mirrors the source's `Intl` formatting: local dates become `tzDay`,
local `HH:MM` becomes `tzTimeOfDay`.  JS numbers can go negative here (the
middle-day sum is unclamped), hence the `ℤ` codomain. -/
def countBusinessMinutes (start stop : ℤ) (ctx : BusinessTimeContext) : ℤ :=
  if start ≥ stop then 0
  else
    let bh := ctx.config.businessHours
    if tzDay start bh = tzDay stop bh then
      getBusinessMinutesForDay start (tzTimeOfDay start bh) (tzTimeOfDay stop bh) ctx
    else
      middleDaysGo ctx (getBusinessMinutesForDay start (tzTimeOfDay start bh) 1440 ctx)
          (start + 1440) (tzDay stop bh - tzDay (start + 1440) bh).toNat +
        getBusinessMinutesForDay stop 0 (tzTimeOfDay stop bh) ctx

/-- The `while (daysAdded < businessDays)` loop of `addBusinessDays`
(`src/business-time.ts` lines 184-191), with explicit fuel: one civil day per
iteration, counting qualifying days; `none` models divergence. -/
def addBusinessDaysGo (ctx : BusinessTimeContext) (businessDays : ℚ) :
    ℕ → ℤ → ℕ → Option ℤ
  | fuel, result, daysAdded =>
    if (daysAdded : ℚ) < businessDays then
      match fuel with
      | 0 => none
      | fuel + 1 =>
        if isBusinessDay (result + 1440) ctx && !isPTO (result + 1440) ctx.ptoIntervals then
          addBusinessDaysGo ctx businessDays fuel (result + 1440) (daysAdded + 1)
        else
          addBusinessDaysGo ctx businessDays fuel (result + 1440) daysAdded
    else some result

/-- An upper bound past every configured holiday and PTO end, relative to the
given start: beyond it, day-steps from `start` can only be stopped by the
weekday check. -/
def boundedExclusionFuel (start : ℤ) (ctx : BusinessTimeContext) : ℕ :=
  ((ctx.holidays.foldl max 0 - tzDay start ctx.config.businessHours).toNat ⊔
    ((ctx.ptoIntervals.map PTOInterval.stop).foldl max 0 - utcDay start).toNat)

/-- Fuel that provably suffices for `addBusinessDaysGo` whenever some genuine
business weekday is configured (see the termination lemmas below). -/
def suffFuel (start : ℤ) (businessDays : ℚ) (ctx : BusinessTimeContext) : ℕ :=
  boundedExclusionFuel start ctx + 7 * (⌈businessDays⌉₊ + 1)

/-- `addBusinessDays` (`src/business-time.ts` lines 176-194): advance whole
civil days (preserving the time of day) until `businessDays` qualifying days
have been counted.  The loop is run with `suffFuel`; the `getD` branch stands
in for the source's divergence and is unreachable for contexts with a genuine
business weekday. -/
def addBusinessDays (startDate : ℤ) (businessDays : ℚ) (ctx : BusinessTimeContext) : ℤ :=
  (addBusinessDaysGo ctx businessDays (suffFuel startDate businessDays ctx) startDate 0).getD
    startDate

/-- The `while (!isBusinessMinute(result))` loop of `getNextBusinessTime`
(`src/business-time.ts` lines 204-206), with explicit fuel. -/
def getNextBusinessTimeGo (ctx : BusinessTimeContext) : ℕ → ℤ → Option ℤ
  | fuel, result =>
    if isBusinessMinute result ctx then some result
    else
      match fuel with
      | 0 => none
      | fuel + 1 => getNextBusinessTimeGo ctx fuel (result + 1)

/-- `getNextBusinessTime` (`src/business-time.ts` lines 196-209): first
business minute strictly after `fromTime` (the source first steps one minute
and zeroes seconds), fuelled. -/
def getNextBusinessTime (fromTime : ℤ) (ctx : BusinessTimeContext) (fuel : ℕ) : Option ℤ :=
  getNextBusinessTimeGo ctx fuel (fromTime + 1)

/-- `getTotalBusinessMinutesInWindow` (`src/business-time.ts` lines 211-217). -/
def getTotalBusinessMinutesInWindow (windowStart windowEnd : ℤ)
    (ctx : BusinessTimeContext) : ℤ :=
  countBusinessMinutes windowStart windowEnd ctx

/-! ## `src/slo.ts` -/

/-- The fields of `PR` (`src/types.ts`) the core reads; `number` stands for
the identity payload (repo, number, url, title, ...). -/
structure PR where
  number : ℤ
  requestedAt : ℤ
  loc : ℤ
deriving DecidableEq, Repr

/-- `PRWithDeadline` (`src/types.ts`): the PR plus derived fields.  The
current `computeDeadline` stores `bucket ?? "excluded"`, a string. -/
structure PRWithDeadline where
  number : ℤ
  requestedAt : ℤ
  loc : ℤ
  bucket : String
  deadline : ℤ
  isOverdue : Bool
deriving DecidableEq, Repr

/-- One element of `BudgetRun.prs` (`src/types.ts`), with the `reviewedAt`
field read by `computeBadMinutesInWindow` (absent/undefined ↦ `none`). -/
structure RunPR where
  requestedAt : ℤ
  loc : ℤ
  reviewedAt : Option ℤ
deriving DecidableEq, Repr

/-- `BudgetRun` (`src/types.ts`): a timestamped snapshot of the queue. -/
structure BudgetRun where
  runAt : ℤ
  prs : List RunPR
deriving DecidableEq, Repr

/-- `getSortedBuckets` (`src/slo.ts` lines 17-19): `Object.entries` yields
insertion order `[small, medium]`; JS `sort` by `maxLoc` is stable, so the
result swaps the two entries exactly when `medium.maxLoc < small.maxLoc`. -/
def getSortedBuckets (config : Config) : List (String × SizeBucket) :=
  if config.sizeBuckets.medium.maxLoc < config.sizeBuckets.small.maxLoc then
    [("medium", config.sizeBuckets.medium), ("small", config.sizeBuckets.small)]
  else
    [("small", config.sizeBuckets.small), ("medium", config.sizeBuckets.medium)]

/-- `assignBucket` (`src/slo.ts` lines 22-33): first bucket, in ascending
`maxLoc` order, whose ceiling exceeds the LOC; `none` (`null`) if the PR
exceeds all buckets. -/
def assignBucket (loc : ℤ) (config : Config) : Option String :=
  (getSortedBuckets config).findSome? fun nb =>
    if loc < nb.2.maxLoc then some nb.1 else none

/-- `getAllowedBusinessDays` (`src/slo.ts` lines 35-42):
`config.sizeBuckets[bucket]?.businessDays ?? 0`. -/
def getAllowedBusinessDays (bucket : Option String) (config : Config) : ℚ :=
  match bucket with
  | none => 0
  | some name =>
    if name = "small" then config.sizeBuckets.small.businessDays
    else if name = "medium" then config.sizeBuckets.medium.businessDays
    else 0

/-- `new Date(8640000000000000)` (`src/slo.ts` line 54), in minutes: the
"infinite" deadline sentinel for excluded PRs. -/
def maxDateSentinel : ℤ := 144000000000

/-- `computeDeadline` (`src/slo.ts` lines 44-66).  The source samples the
ambient wall clock (`const now = new Date()`, line 57); that reading is the
explicit `now` argument here. -/
def computeDeadline (pr : PR) (config : Config) (ctx : BusinessTimeContext)
    (now : ℤ) : PRWithDeadline :=
  let bucket := assignBucket pr.loc config
  let businessDays := getAllowedBusinessDays bucket config
  let deadline :=
    match bucket with
    | none => maxDateSentinel
    | some _ => addBusinessDays pr.requestedAt businessDays ctx
  { number := pr.number
    requestedAt := pr.requestedAt
    loc := pr.loc
    bucket := bucket.getD "excluded"
    deadline := deadline
    isOverdue := bucket.isSome && decide (deadline < now) }

/-- Ascending stable sort by deadline (`sort((a, b) => a.deadline - b.deadline)`). -/
def sortByDeadline (prs : List PRWithDeadline) : List PRWithDeadline :=
  prs.mergeSort fun a b => decide (a.deadline ≤ b.deadline)

/-- `computePRDeadlines` (`src/slo.ts` lines 68-77). -/
def computePRDeadlines (prs : List PR) (config : Config) (ctx : BusinessTimeContext)
    (now : ℤ) : List PRWithDeadline :=
  sortByDeadline (((prs.map fun pr => computeDeadline pr config ctx now).filter
    fun pr => pr.bucket ≠ "excluded"))

/-- `getMinDeadline` (`src/slo.ts` lines 79-82): head's deadline of a
deadline-sorted list, `null` when empty. -/
def getMinDeadline (prs : List PRWithDeadline) : Option ℤ :=
  prs.head?.map PRWithDeadline.deadline

/-- Whether a snapshot item was already reviewed at `runAt`
(`pr.reviewedAt && new Date(pr.reviewedAt) <= runAt`, `src/slo.ts` line 118). -/
def reviewedBy (pr : RunPR) (runAt : ℤ) : Bool :=
  pr.reviewedAt.any fun r => decide (r ≤ runAt)

/-- The inner `for (const pr of run.prs)` loop of `computeBadMinutesInWindow`
(`src/slo.ts` lines 105-123), folding the running `minDeadline`. -/
def runMinDeadlineGo (ctx : BusinessTimeContext) (runAt : ℤ) :
    Option ℤ → List RunPR → Option ℤ
  | acc, [] => acc
  | acc, pr :: rest =>
    match assignBucket pr.loc ctx.config with
    | none => runMinDeadlineGo ctx runAt acc rest
    | some bucket =>
      let deadline :=
        addBusinessDays pr.requestedAt (getAllowedBusinessDays (some bucket) ctx.config) ctx
      if reviewedBy pr runAt then runMinDeadlineGo ctx runAt acc rest
      else
        runMinDeadlineGo ctx runAt
          (some (match acc with
            | none => deadline
            | some m => if deadline < m then deadline else m)) rest

/-- Ascending stable sort of runs by `runAt` (`src/slo.ts` line 97). -/
def sortRunsByRunAt (runs : List BudgetRun) : List BudgetRun :=
  runs.mergeSort fun a b => decide (a.runAt ≤ b.runAt)

/-- The outer indexed loop of `computeBadMinutesInWindow` (`src/slo.ts`
lines 99-139); `prevRunAt` carries `sortedRuns[i-1].runAt`. -/
def badRunsGo (ctx : BusinessTimeContext) (windowStart windowEnd : ℤ) :
    Option ℤ → List BudgetRun → ℤ
  | _, [] => 0
  | prevRunAt, run :: rest =>
    (match runMinDeadlineGo ctx run.runAt none run.prs with
      | none => 0
      | some minDeadline =>
        if minDeadline < run.runAt then
          let badStart :=
            match prevRunAt with
            | some p => if minDeadline < p then p else minDeadline
            | none => minDeadline
          let overlapStart := if badStart < windowStart then windowStart else badStart
          let overlapEnd := if windowEnd < run.runAt then windowEnd else run.runAt
          if overlapStart < overlapEnd then countBusinessMinutes overlapStart overlapEnd ctx
          else 0
        else 0) +
      badRunsGo ctx windowStart windowEnd (some run.runAt) rest

/-- `computeBadMinutesInWindow` (`src/slo.ts` lines 85-142). -/
def computeBadMinutesInWindow (budgetRuns : List BudgetRun) (windowStart windowEnd : ℤ)
    (ctx : BusinessTimeContext) : ℤ :=
  badRunsGo ctx windowStart windowEnd none
    (sortRunsByRunAt (budgetRuns.filter fun run =>
      decide (windowStart ≤ run.runAt) && decide (run.runAt ≤ windowEnd)))

/-- `SLIResult` (`src/types.ts`); JS numbers carried exactly as rationals. -/
structure SLIResult where
  goodMinutes : ℚ
  totalBusinessMinutes : ℚ
  sli : ℚ
  budgetMinutes : ℚ
  badMinutes : ℚ
  budgetRemaining : ℚ
  isMet : Bool
deriving DecidableEq, Repr

/-- `computeSLI` (`src/slo.ts` lines 144-178). -/
def computeSLI (budgetRuns : List BudgetRun) (windowStart windowEnd : ℤ)
    (ctx : BusinessTimeContext) : SLIResult :=
  let totalBusinessMinutes : ℚ := (getTotalBusinessMinutesInWindow windowStart windowEnd ctx : ℤ)
  let badMinutes : ℚ := (computeBadMinutesInWindow budgetRuns windowStart windowEnd ctx : ℤ)
  let goodMinutes := totalBusinessMinutes - badMinutes
  let sli := if 0 < totalBusinessMinutes then goodMinutes / totalBusinessMinutes else 1
  let budgetMinutes := totalBusinessMinutes * (1 - ctx.config.slo.target)
  let budgetRemaining := budgetMinutes - badMinutes
  { goodMinutes := goodMinutes
    totalBusinessMinutes := totalBusinessMinutes
    sli := sli
    budgetMinutes := budgetMinutes
    badMinutes := badMinutes
    budgetRemaining := budgetRemaining
    isMet := decide (ctx.config.slo.target ≤ sli) }

/-- One `extraCredit` entry (`src/types.ts`): the PR spread together with the
savings metrics. -/
structure ExtraCreditEntry where
  pr : PRWithDeadline
  savedBadMinutes : ℤ
  percentOfRemainingBudget : ℚ
deriving DecidableEq, Repr

/-- `ReviewRecommendation` (`src/types.ts`). -/
structure ReviewRecommendation where
  mustDoToday : List PRWithDeadline
  extraCredit : List ExtraCreditEntry
  projectedBadMinutesIfNoReviews : ℤ
  histBadMinutes : ℤ
  budgetMinutes : ℚ
deriving DecidableEq, Repr

/-- The `while (remainingPRs.length > 0)` loop of
`computeReviewRecommendations` (`src/slo.ts` lines 228-249): move
earliest-deadline PRs into `mustDoToday` while the projected total exceeds the
budget; returns (mustDoToday, remainingPRs). -/
def mustDoGo (histBadMinutes : ℤ) (budgetMinutes : ℚ) (now nextReviewTime : ℤ)
    (ctx : BusinessTimeContext) : List PRWithDeadline → List PRWithDeadline × List PRWithDeadline
  | [] => ([], [])
  | pr :: rest =>
    let nextMinDeadline := pr.deadline
    let projBad : ℤ :=
      if nextMinDeadline < nextReviewTime then
        countBusinessMinutes (if nextMinDeadline < now then now else nextMinDeadline)
          nextReviewTime ctx
      else 0
    if budgetMinutes < ((histBadMinutes + projBad : ℤ) : ℚ) then
      let tail := mustDoGo histBadMinutes budgetMinutes now nextReviewTime ctx rest
      (pr :: tail.1, tail.2)
    else ([], pr :: rest)

/-- The `for` loop over `remainingPRs` of `computeReviewRecommendations`
(`src/slo.ts` lines 252-288); `remainingPRs.slice(i + 1)` is the structural
tail. -/
def extraCreditGo (projectedBadMinutesIfNoReviews histBadMinutes : ℤ) (budgetMinutes : ℚ)
    (now nextReviewTime : ℤ) (ctx : BusinessTimeContext) :
    List PRWithDeadline → List ExtraCreditEntry
  | [] => []
  | pr :: rest =>
    if nextReviewTime ≤ pr.deadline then
      extraCreditGo projectedBadMinutesIfNoReviews histBadMinutes budgetMinutes now
        nextReviewTime ctx rest
    else
      let projBadAfterReviewing : ℤ :=
        match getMinDeadline rest with
        | some d =>
          if d < nextReviewTime then
            countBusinessMinutes (if d < now then now else d) nextReviewTime ctx
          else 0
        | none => 0
      let savedBadMinutes := projectedBadMinutesIfNoReviews - projBadAfterReviewing
      let remainingBudget := budgetMinutes - (histBadMinutes : ℚ)
      let percentOfRemainingBudget : ℚ :=
        if 0 < remainingBudget then
          min 1 (max 0 ((savedBadMinutes : ℚ) / remainingBudget))
        else 0
      { pr := pr
        savedBadMinutes := savedBadMinutes
        percentOfRemainingBudget := percentOfRemainingBudget } ::
        extraCreditGo projectedBadMinutesIfNoReviews histBadMinutes budgetMinutes now
          nextReviewTime ctx rest

/-- `computeReviewRecommendations` (`src/slo.ts` lines 180-297). -/
def computeReviewRecommendations (prs : List PRWithDeadline) (budgetRuns : List BudgetRun)
    (now nextReviewTime : ℤ) (ctx : BusinessTimeContext) : ReviewRecommendation :=
  let windowStart := nextReviewTime - 1440 * ctx.config.slo.windowDays
  let histBadMinutes := computeBadMinutesInWindow budgetRuns windowStart nextReviewTime ctx
  let totalBusinessMinutes := getTotalBusinessMinutesInWindow windowStart nextReviewTime ctx
  let budgetMinutes : ℚ := (totalBusinessMinutes : ℚ) * (1 - ctx.config.slo.target)
  let sortedPRs := sortByDeadline prs
  let projectedBadMinutesIfNoReviews : ℤ :=
    match getMinDeadline sortedPRs with
    | some minDeadline =>
      if minDeadline < nextReviewTime then
        countBusinessMinutes (if minDeadline < now then now else minDeadline)
          nextReviewTime ctx
      else 0
    | none => 0
  let mustDo := mustDoGo histBadMinutes budgetMinutes now nextReviewTime ctx sortedPRs
  { mustDoToday := mustDo.1
    extraCredit :=
      extraCreditGo projectedBadMinutesIfNoReviews histBadMinutes budgetMinutes now
        nextReviewTime ctx mustDo.2
    projectedBadMinutesIfNoReviews := projectedBadMinutesIfNoReviews
    histBadMinutes := histBadMinutes
    budgetMinutes := budgetMinutes }

/-! ## Concrete fixtures (mirroring the mock config of `src/slo.test.ts`) -/

/-- 09:00-17:00 at a zero timezone offset (local = UTC). -/
def sampleBusinessHours : BusinessHours := { start := 9, endHour := 17, tzOffset := 0 }

/-- The `mockConfig` of the test suite: Mon-Fri, 9-17, small = (200 LOC, 1 day),
medium = (800 LOC, 3 days), target 0.9, 30-day window. -/
def sampleConfig : Config :=
  { businessHours := sampleBusinessHours
    businessDays := [1, 2, 3, 4, 5]
    slo := { target := Rat.divInt 9 10, windowDays := 30 }
    sizeBuckets := { small := { maxLoc := 200, businessDays := 1 }
                     medium := { maxLoc := 800, businessDays := 3 } } }

/-- Context with no holidays and no PTO.  Day 4 (= 1970-01-05) is a Monday. -/
def sampleCtx : BusinessTimeContext :=
  { config := sampleConfig, holidays := [], ptoIntervals := [] }

/-- A PR of 100 LOC requested on Monday (day 4) at 10:00: minute 6360. -/
def samplePR : PR := { number := 1, requestedAt := 6360, loc := 100 }

/-- `sampleConfig` with the buckets' durations swapped: the smaller bucket is
the *less* urgent one (3 days) and the larger one the *more* urgent (1 day). -/
def swappedDurationConfig : Config :=
  { sampleConfig with
    sizeBuckets := { small := { maxLoc := 200, businessDays := 3 }
                     medium := { maxLoc := 800, businessDays := 1 } } }

/-- An (invalid) configuration: end hour ≤ start hour and an empty
business-weekday set. -/
def invalidConfig : Config :=
  { sampleConfig with
    businessHours := { start := 17, endHour := 9, tzOffset := 0 }
    businessDays := [] }

/-- Mon-Fri context whose business-hours window is empty (start = end = 9). -/
def degenerateHoursCtx : BusinessTimeContext :=
  { config := { sampleConfig with businessHours := { start := 9, endHour := 9, tzOffset := 0 } }
    holidays := [], ptoIntervals := [] }

/-! ## Small helper lemmas -/

theorem assignBucket_eq_small_or_medium {loc : ℤ} {config : Config} {name : String}
    (h : assignBucket loc config = some name) : name = "small" ∨ name = "medium" := by
  unfold assignBucket getSortedBuckets at h
  by_cases h1 : config.sizeBuckets.medium.maxLoc < config.sizeBuckets.small.maxLoc <;>
    by_cases h2 : loc < config.sizeBuckets.medium.maxLoc <;>
      by_cases h3 : loc < config.sizeBuckets.small.maxLoc <;>
        simp [h1, h2, h3, List.findSome?] at h <;> simp [h]

/-! ## Claim C4 -/

/-- Claim C4 (code_bug evaluation): on `swappedDurationConfig` and a PR of 100
LOC, both buckets match (100 < 200 and 100 < 800), the "medium" bucket has the
strictly smaller allowed duration (1 < 3), yet `assignBucket` returns "small":
the current ladder picks the smallest matching *ceiling* and ignores durations
(and it consults no predicates), contradicting the spec's rule-selection
contract and the repository's own test
"returns bucket with minimum businessDays when multiple match". -/
theorem assignBucket_ignores_duration_eval :
    assignBucket 100 swappedDurationConfig = some "small" ∧
    (100 : ℤ) < swappedDurationConfig.sizeBuckets.small.maxLoc ∧
    (100 : ℤ) < swappedDurationConfig.sizeBuckets.medium.maxLoc ∧
    swappedDurationConfig.sizeBuckets.medium.businessDays <
      swappedDurationConfig.sizeBuckets.small.businessDays ∧
    getAllowedBusinessDays (assignBucket 100 swappedDurationConfig) swappedDurationConfig = 3 := by
  decide

/-! ## Claim C7 -/

/-- Claim C7: a PR matching no bucket is marked "excluded", gets the infinite
deadline sentinel, and is never overdue, whatever the clock reads; conversely
`isOverdue` implies a non-excluded bucket. -/
theorem computeDeadline_excluded_invariants (pr : PR) (config : Config)
    (ctx : BusinessTimeContext) (now : ℤ) :
    (assignBucket pr.loc config = none →
      (computeDeadline pr config ctx now).bucket = "excluded" ∧
        (computeDeadline pr config ctx now).deadline = maxDateSentinel ∧
        (computeDeadline pr config ctx now).isOverdue = false) ∧
    ((computeDeadline pr config ctx now).isOverdue = true →
      (computeDeadline pr config ctx now).bucket ≠ "excluded" ∧
        assignBucket pr.loc config ≠ none) := by
  constructor
  · intro h
    simp [computeDeadline, h]
  · intro h
    unfold computeDeadline at *
    rcases hb : assignBucket pr.loc config with - | name
    · simp [hb] at h
    · rcases assignBucket_eq_small_or_medium hb with h1 | h1 <;> simp [hb, h1]

/-- Claim C7 witness: the 1000-LOC PR exceeds both buckets of `sampleConfig`;
instantiating the theorem at it (and an arbitrary clock value) yields the
excluded marker, the sentinel deadline, and `isOverdue = false`. -/
theorem computeDeadline_excluded_invariants_witness :
    (computeDeadline { number := 2, requestedAt := 6360, loc := 1000 } sampleConfig sampleCtx
        999999999).bucket = "excluded" ∧
      (computeDeadline { number := 2, requestedAt := 6360, loc := 1000 } sampleConfig sampleCtx
          999999999).deadline = maxDateSentinel ∧
      (computeDeadline { number := 2, requestedAt := 6360, loc := 1000 } sampleConfig sampleCtx
          999999999).isOverdue = false :=
  (computeDeadline_excluded_invariants { number := 2, requestedAt := 6360, loc := 1000 }
      sampleConfig sampleCtx 999999999).1 (by decide)

/-! ## Claim C8 -/

/-- Claim C8 (counterexample): `computeDeadline` samples the ambient wall
clock (`const now = new Date()`), so its `isOverdue` flag is *not* determined
solely by its arguments: the same PR, config and context yield `isOverdue =
false` when the clock reads Monday 20:40 (minute 7000) and `isOverdue = true`
when it reads Wednesday 06:00 (minute 9000) — the deadline being Tuesday 10:00
(minute 7800). -/
theorem computeDeadline_clock_dependence :
    (computeDeadline samplePR sampleConfig sampleCtx 7000).isOverdue = false ∧
    (computeDeadline samplePR sampleConfig sampleCtx 9000).isOverdue = true ∧
    (computeDeadline samplePR sampleConfig sampleCtx 7000).deadline = 7800 := by
  decide

/-- Claim C8 (amended): with the wall-clock reading modelled as the explicit
argument `now`, every core result is a pure function of arguments plus that
reading; in particular `computeDeadline`'s bucket and deadline do not depend on
the clock at all, and `isOverdue` equals "non-excluded and deadline < now". -/
theorem computeDeadline_deterministic_given_clock (pr : PR) (config : Config)
    (ctx : BusinessTimeContext) (now₁ now₂ : ℤ) :
    (computeDeadline pr config ctx now₁).bucket = (computeDeadline pr config ctx now₂).bucket ∧
    (computeDeadline pr config ctx now₁).deadline =
      (computeDeadline pr config ctx now₂).deadline ∧
    (computeDeadline pr config ctx now₁).isOverdue =
      ((assignBucket pr.loc config).isSome &&
        decide ((computeDeadline pr config ctx now₁).deadline < now₁)) := by
  refine ⟨rfl, rfl, ?_⟩
  rfl

/-! ## Claim C9 -/

/-- Claim C9 (counterexample): constructing a context from a configuration
with end hour ≤ start hour *and* an empty weekday set succeeds: the invalid
configuration is stored untouched, no `ConfigurationError` exists anywhere in
the sources. -/
theorem createBusinessTimeContext_accepts_invalid :
    (createBusinessTimeContext invalidConfig [] []).config = invalidConfig ∧
    (createBusinessTimeContext invalidConfig [] []).config.businessHours.endHour ≤
      (createBusinessTimeContext invalidConfig [] []).config.businessHours.start ∧
    (createBusinessTimeContext invalidConfig [] []).config.businessDays = [] :=
  ⟨rfl, by decide, by decide⟩

/-- Claim C9 (amended): `createBusinessTimeContext` performs no validation and
has no failure path — it returns an ordinary context for every configuration —
and the "failure" outcomes of normal operation are plain values: an empty
history contributes zero bad minutes, an empty queue has no minimum deadline,
and an unmatched item comes back marked "excluded" rather than raising. -/
theorem createBusinessTimeContext_total (config : Config) (ptoIntervals : List PTOInterval)
    (holidays : List ℤ) (windowStart windowEnd now : ℤ) (pr : PR) :
    createBusinessTimeContext config ptoIntervals holidays =
      { config := config, holidays := holidays, ptoIntervals := ptoIntervals } ∧
    computeBadMinutesInWindow [] windowStart windowEnd
      (createBusinessTimeContext config ptoIntervals holidays) = 0 ∧
    getMinDeadline [] = none ∧
    (computeDeadline pr config (createBusinessTimeContext config ptoIntervals holidays)
        now).bucket = (assignBucket pr.loc config).getD "excluded" := by
  refine ⟨rfl, ?_, rfl, rfl⟩
  simp [computeBadMinutesInWindow, sortRunsByRunAt, badRunsGo]

/-! ## Claim C3 -/

theorem sliFormulaOne (t b : ℚ) (hb : b = 0) (ht : 0 < t) :
    (if 0 < t then (t - b) / t else 1) = 1 := by
  rw [if_pos ht, hb, sub_zero, div_self ht.ne']

/-- Claim C3: `computeSLI` returns exactly the documented aggregate — total
business minutes, bad minutes from the ledger, `good = total - bad`,
`sli = good/total` when `total > 0` (else 1), `budget = total × (1 - target)`,
`remaining = budget - bad`, `met ↔ sli ≥ target`; and with zero bad minutes
and positive total, `sli = 1` and the SLO is met for every target ≤ 1. -/
theorem computeSLI_fields (budgetRuns : List BudgetRun) (windowStart windowEnd : ℤ)
    (ctx : BusinessTimeContext) :
    (computeSLI budgetRuns windowStart windowEnd ctx).totalBusinessMinutes =
      ((getTotalBusinessMinutesInWindow windowStart windowEnd ctx : ℤ) : ℚ) ∧
    (computeSLI budgetRuns windowStart windowEnd ctx).badMinutes =
      ((computeBadMinutesInWindow budgetRuns windowStart windowEnd ctx : ℤ) : ℚ) ∧
    (computeSLI budgetRuns windowStart windowEnd ctx).goodMinutes =
      (computeSLI budgetRuns windowStart windowEnd ctx).totalBusinessMinutes -
        (computeSLI budgetRuns windowStart windowEnd ctx).badMinutes ∧
    (computeSLI budgetRuns windowStart windowEnd ctx).sli =
      (if 0 < (computeSLI budgetRuns windowStart windowEnd ctx).totalBusinessMinutes then
        (computeSLI budgetRuns windowStart windowEnd ctx).goodMinutes /
          (computeSLI budgetRuns windowStart windowEnd ctx).totalBusinessMinutes
      else 1) ∧
    (computeSLI budgetRuns windowStart windowEnd ctx).budgetMinutes =
      (computeSLI budgetRuns windowStart windowEnd ctx).totalBusinessMinutes *
        (1 - ctx.config.slo.target) ∧
    (computeSLI budgetRuns windowStart windowEnd ctx).budgetRemaining =
      (computeSLI budgetRuns windowStart windowEnd ctx).budgetMinutes -
        (computeSLI budgetRuns windowStart windowEnd ctx).badMinutes ∧
    ((computeSLI budgetRuns windowStart windowEnd ctx).isMet = true ↔
      ctx.config.slo.target ≤ (computeSLI budgetRuns windowStart windowEnd ctx).sli) ∧
    ((computeSLI budgetRuns windowStart windowEnd ctx).badMinutes = 0 →
      0 < (computeSLI budgetRuns windowStart windowEnd ctx).totalBusinessMinutes →
      (computeSLI budgetRuns windowStart windowEnd ctx).sli = 1 ∧
        (ctx.config.slo.target ≤ 1 →
          (computeSLI budgetRuns windowStart windowEnd ctx).isMet = true)) := by
  refine ⟨rfl, rfl, rfl, rfl, rfl, rfl,
    ⟨fun h => of_decide_eq_true h, fun h => decide_eq_true h⟩, ?_⟩
  intro hbad hpos
  have hsli : (computeSLI budgetRuns windowStart windowEnd ctx).sli = 1 :=
    sliFormulaOne _ _ hbad hpos
  refine ⟨hsli, fun htarget => decide_eq_true ?_⟩
  show ctx.config.slo.target ≤ (computeSLI budgetRuns windowStart windowEnd ctx).sli
  rw [hsli]; exact htarget

/-- Claim C3 witness: over the empty history and the ten-day window
[0, 14400) in `sampleCtx`, the bad minutes are 0 and the total is positive, so
the theorem yields `sli = 1` and `isMet = true` (the target 0.9 is ≤ 1). -/
theorem computeSLI_fields_witness :
    (computeSLI [] 0 14400 sampleCtx).sli = 1 ∧
      (computeSLI [] 0 14400 sampleCtx).isMet = true := by
  have hbad : (computeSLI [] 0 14400 sampleCtx).badMinutes = 0 := by
    show ((computeBadMinutesInWindow [] 0 14400 sampleCtx : ℤ) : ℚ) = 0
    norm_num [computeBadMinutesInWindow, sortRunsByRunAt, badRunsGo]
  have hpos : (0 : ℚ) < (computeSLI [] 0 14400 sampleCtx).totalBusinessMinutes := by
    show (0 : ℚ) < ((getTotalBusinessMinutesInWindow 0 14400 sampleCtx : ℤ) : ℚ)
    have h : (0 : ℤ) < getTotalBusinessMinutesInWindow 0 14400 sampleCtx := by decide
    exact_mod_cast h
  obtain ⟨h1, h2⟩ := (computeSLI_fields [] 0 14400 sampleCtx).2.2.2.2.2.2.2 hbad hpos
  exact ⟨h1, h2 (by decide)⟩

/-! ## Claim C5 -/

/-- Modelled from the spec (§4.1 `addBusinessDays`, the sub-day contract the
current source lacks): "convert `duration` to business minutes (duration ×
minutes-per-business-day), then advance minute-by-minute skipping non-business
minutes, landing exactly that many qualifying minutes later" — the
minute-by-minute advance, fuelled. -/
def advanceBusinessMinutesGo (ctx : BusinessTimeContext) : ℕ → ℤ → ℕ → Option ℤ
  | _, t, 0 => some t
  | 0, _, _ + 1 => none
  | fuel + 1, t, n + 1 =>
    if isBusinessMinute (t + 1) ctx then advanceBusinessMinutesGo ctx fuel (t + 1) n
    else advanceBusinessMinutesGo ctx fuel (t + 1) (n + 1)

/-- Modelled from the spec (§4.1): `addBusinessDays` at business-minute
granularity. -/
def addBusinessDaysSpecModel (start : ℤ) (duration : ℚ) (ctx : BusinessTimeContext)
    (fuel : ℕ) : Option ℤ :=
  advanceBusinessMinutesGo ctx fuel start
    ⌈duration * ((minutesPerBusinessDay ctx.config.businessHours : ℤ) : ℚ)⌉₊

set_option maxRecDepth 40000 in
/-- Claim C5 (code_bug evaluation): from Monday 10:00 (minute 6360) in
`sampleCtx` (9-17 hours, so a 480-minute business day), a duration of 0.5
business days should land 240 qualifying minutes later, at Monday 14:00
(minute 6600) — but the source's whole-day loop treats 0.5 exactly like 1 and
returns Tuesday 10:00 (minute 7800). -/
theorem addBusinessDays_wholeDay_eval :
    addBusinessDays 6360 (Rat.divInt 1 2) sampleCtx = 7800 ∧
    addBusinessDays 6360 (Rat.divInt 1 2) sampleCtx = addBusinessDays 6360 1 sampleCtx ∧
    addBusinessDaysSpecModel 6360 (Rat.divInt 1 2) sampleCtx 300 = some 6600 ∧
    (7800 : ℤ) ≠ 6600 := by
  have hceil : ⌈Rat.divInt 1 2⌉₊ = 1 := by
    rw [Rat.divInt_eq_div, show ((1 : ℤ) : ℚ) / ((2 : ℤ) : ℚ) = 1 / 2 by norm_num]
    rw [Nat.ceil_eq_iff one_ne_zero]
    norm_num
  have hfuel : suffFuel 6360 (Rat.divInt 1 2) sampleCtx = 14 := by
    simp only [suffFuel, hceil]
    decide
  have hgo : addBusinessDaysGo sampleCtx (Rat.divInt 1 2) 14 6360 0 = some 7800 := by
    decide
  have h1 : addBusinessDays 6360 (Rat.divInt 1 2) sampleCtx = 7800 := by
    unfold addBusinessDays
    rw [hfuel, hgo]
    rfl
  have hmul : Rat.divInt 1 2 *
      ((minutesPerBusinessDay sampleCtx.config.businessHours : ℤ) : ℚ) = ((240 : ℕ) : ℚ) := by
    rw [Rat.divInt_eq_div]
    norm_num [minutesPerBusinessDay, sampleCtx, sampleConfig, sampleBusinessHours]
  have h3 : addBusinessDaysSpecModel 6360 (Rat.divInt 1 2) sampleCtx 300 = some 6600 := by
    unfold addBusinessDaysSpecModel
    rw [hmul, Nat.ceil_natCast]
    decide
  exact ⟨h1, by rw [h1]; symm; decide, h3, by decide⟩

/-! ## Claim C6 -/

theorem mustDoGo_take_drop (histBadMinutes : ℤ) (budgetMinutes : ℚ) (now nextReviewTime : ℤ)
    (ctx : BusinessTimeContext) (l : List PRWithDeadline) :
    ∃ k, mustDoGo histBadMinutes budgetMinutes now nextReviewTime ctx l =
      (l.take k, l.drop k) := by
  induction l with
  | nil => exact ⟨0, rfl⟩
  | cons pr rest ih =>
    obtain ⟨k, hk⟩ := ih
    simp only [mustDoGo]
    repeat' split
    all_goals
      first
        | exact ⟨0, rfl⟩
        | exact ⟨k + 1, by simp [hk, List.take_succ_cons, List.drop_succ_cons]⟩

theorem extraCreditGo_map_eq_filter (projected histBadMinutes : ℤ) (budgetMinutes : ℚ)
    (now nextReviewTime : ℤ) (ctx : BusinessTimeContext) (l : List PRWithDeadline) :
    (extraCreditGo projected histBadMinutes budgetMinutes now nextReviewTime ctx l).map
        ExtraCreditEntry.pr =
      l.filter fun pr => decide (pr.deadline < nextReviewTime) := by
  induction l with
  | nil => rfl
  | cons pr rest ih =>
    simp only [extraCreditGo]
    split
    · next h =>
      rw [ih, List.filter_cons]
      simp [decide_eq_false (not_lt.mpr h)]
    · next h =>
      rw [List.map_cons, ih, List.filter_cons]
      simp [decide_eq_true (lt_of_not_le h)]

theorem sortByDeadline_sorted (prs : List PRWithDeadline) :
    List.Pairwise (fun a b : PRWithDeadline => a.deadline ≤ b.deadline)
      (sortByDeadline prs) := by
  have h := @List.sorted_mergeSort PRWithDeadline
    (fun a b : PRWithDeadline => decide (a.deadline ≤ b.deadline))
    (fun a b c hab hbc => by
      simp only [decide_eq_true_eq] at *
      exact le_trans hab hbc)
    (fun a b => by
      simp only [Bool.or_eq_true, decide_eq_true_eq]
      exact le_total a.deadline b.deadline)
    prs
  exact h.imp fun hab => of_decide_eq_true hab

/-- Claim C6: the planner's `mustDoToday` is a prefix of the deadline-sorted
outstanding items (hence itself deadline-ordered), the extra-credit entries
are exactly the remaining items due before the next review, and
`mustDoToday ++ extraCredit ++ deferrable` is a permutation of the full
outstanding input — every item lands in exactly one of the three parts. -/
theorem computeReviewRecommendations_partition (prs : List PRWithDeadline)
    (budgetRuns : List BudgetRun) (now nextReviewTime : ℤ) (ctx : BusinessTimeContext) :
    ∃ k,
      (computeReviewRecommendations prs budgetRuns now nextReviewTime ctx).mustDoToday =
        (sortByDeadline prs).take k ∧
      List.Pairwise (fun a b : PRWithDeadline => a.deadline ≤ b.deadline)
        ((computeReviewRecommendations prs budgetRuns now nextReviewTime ctx).mustDoToday) ∧
      ((computeReviewRecommendations prs budgetRuns now nextReviewTime ctx).extraCredit).map
          ExtraCreditEntry.pr =
        ((sortByDeadline prs).drop k).filter
          (fun pr => decide (pr.deadline < nextReviewTime)) ∧
      ((computeReviewRecommendations prs budgetRuns now nextReviewTime ctx).mustDoToday ++
          ((computeReviewRecommendations prs budgetRuns now nextReviewTime ctx).extraCredit).map
            ExtraCreditEntry.pr ++
          ((sortByDeadline prs).drop k).filter
            (fun pr => !decide (pr.deadline < nextReviewTime))).Perm prs := by
  obtain ⟨k, hk⟩ := mustDoGo_take_drop
    (computeBadMinutesInWindow budgetRuns
      (nextReviewTime - 1440 * ctx.config.slo.windowDays) nextReviewTime ctx)
    ((getTotalBusinessMinutesInWindow
        (nextReviewTime - 1440 * ctx.config.slo.windowDays) nextReviewTime ctx : ℤ) *
      (1 - ctx.config.slo.target))
    now nextReviewTime ctx (sortByDeadline prs)
  refine ⟨k, ?_, ?_, ?_, ?_⟩
  · show (mustDoGo _ _ _ _ _ (sortByDeadline prs)).1 = _
    rw [hk]
  · show List.Pairwise _ ((mustDoGo _ _ _ _ _ (sortByDeadline prs)).1)
    rw [hk]
    exact (sortByDeadline_sorted prs).sublist (List.take_sublist _ _)
  · show (extraCreditGo _ _ _ _ _ _ ((mustDoGo _ _ _ _ _ (sortByDeadline prs)).2)).map
        ExtraCreditEntry.pr = _
    rw [hk]
    exact extraCreditGo_map_eq_filter _ _ _ _ _ _ _
  · show ((mustDoGo _ _ _ _ _ (sortByDeadline prs)).1 ++
        (extraCreditGo _ _ _ _ _ _ ((mustDoGo _ _ _ _ _ (sortByDeadline prs)).2)).map
          ExtraCreditEntry.pr ++ _).Perm prs
    rw [hk]
    rw [extraCreditGo_map_eq_filter]
    have hperm : (sortByDeadline prs).Perm prs := by
      unfold sortByDeadline
      exact List.mergeSort_perm prs _
    refine List.Perm.trans ?_ hperm
    rw [List.append_assoc]
    refine List.Perm.trans
      (List.Perm.append_left ((sortByDeadline prs).take k)
        (List.filter_append_perm _ ((sortByDeadline prs).drop k))) ?_
    rw [List.take_append_drop]

/-! ## Claim C2 -/

/-- Whether a snapshot item enters the minimum-deadline computation: assigned
to some bucket (not excluded) and not yet resolved as of the run. -/
def eligibleAt (ctx : BusinessTimeContext) (runAt : ℤ) (pr : RunPR) : Bool :=
  (assignBucket pr.loc ctx.config).isSome && !reviewedBy pr runAt

/-- The recomputed deadline of a snapshot item (bucket assignment plus
business-day advance, as in §4.3). -/
def recomputedDeadline (ctx : BusinessTimeContext) (pr : RunPR) : ℤ :=
  addBusinessDays pr.requestedAt
    (getAllowedBusinessDays (assignBucket pr.loc ctx.config) ctx.config) ctx

/-- The claim's `d`: the minimum recomputed deadline among the snapshot's
non-excluded items not yet resolved as of `runAt` (none if the queue is empty
or fully excluded/resolved). -/
def runMinDeadlineSpec (ctx : BusinessTimeContext) (runAt : ℤ) (prs : List RunPR) : Option ℤ :=
  ((prs.filter (eligibleAt ctx runAt)).map (recomputedDeadline ctx)).min?

/-- The claim's per-snapshot contribution: when `d` exists and `d < runAt`,
the business-minute length of `[max(prevRunAt, d), runAt)` clipped to the
window (`[d, runAt)` for the first snapshot), else 0. -/
def badContributionSpec (ctx : BusinessTimeContext) (windowStart windowEnd : ℤ)
    (prevRunAt : Option ℤ) (run : BudgetRun) : ℤ :=
  match runMinDeadlineSpec ctx run.runAt run.prs with
  | none => 0
  | some d =>
    if d < run.runAt then
      let clipStart := max (max (prevRunAt.getD d) d) windowStart
      let clipEnd := min run.runAt windowEnd
      if clipStart < clipEnd then countBusinessMinutes clipStart clipEnd ctx else 0
    else 0

/-- The claim's formula: sum of the contributions over the in-window
snapshots sorted ascending by `runAt`, each paired with its predecessor's
`runAt`. -/
def badMinutesSpec (budgetRuns : List BudgetRun) (windowStart windowEnd : ℤ)
    (ctx : BusinessTimeContext) : ℤ :=
  let sorted := sortRunsByRunAt (budgetRuns.filter fun run =>
    decide (windowStart ≤ run.runAt) && decide (run.runAt ≤ windowEnd))
  ((sorted.zip (none :: sorted.map fun r => some r.runAt)).map
    fun p => badContributionSpec ctx windowStart windowEnd p.2 p.1).sum

theorem iteLtElse_eq_max (a b : ℤ) : (if a < b then b else a) = max a b := by
  rw [max_def]
  split <;> split <;> omega

theorem iteLtThen_eq_max (a b : ℤ) : (if a < b then b else a) = max b a := by
  rw [max_def]
  split <;> split <;> omega

theorem iteGtElse_eq_min (a b : ℤ) : (if a < b then a else b) = min a b := by
  rw [min_def]
  split <;> split <;> omega

theorem intMinqConsFoldl (a : ℤ) (l : List ℤ) : (a :: l).min? = some (l.foldl min a) := rfl

theorem eligibleAt_true {ctx : BusinessTimeContext} {runAt : ℤ} {pr : RunPR}
    {bucket : String} (h : assignBucket pr.loc ctx.config = some bucket)
    (hr : reviewedBy pr runAt = false) : eligibleAt ctx runAt pr = true := by
  simp [eligibleAt, h, hr]

theorem runMinDeadlineGo_some (ctx : BusinessTimeContext) (runAt : ℤ) (l : List RunPR)
    (m : ℤ) :
    runMinDeadlineGo ctx runAt (some m) l =
      some (((l.filter (eligibleAt ctx runAt)).map (recomputedDeadline ctx)).foldl min m) := by
  induction l generalizing m with
  | nil => rfl
  | cons pr rest ih =>
    rcases h : assignBucket pr.loc ctx.config with - | bucket
    · have he : eligibleAt ctx runAt pr = false := by simp [eligibleAt, h]
      rw [List.filter_cons, he, if_neg Bool.false_ne_true]
      simp only [runMinDeadlineGo, h]
      exact ih m
    · by_cases hr : reviewedBy pr runAt = true
      · have he : eligibleAt ctx runAt pr = false := by simp [eligibleAt, h, hr]
        rw [List.filter_cons, he, if_neg Bool.false_ne_true]
        simp only [runMinDeadlineGo, h, hr, if_true]
        exact ih m
      · rw [Bool.not_eq_true] at hr
        rw [List.filter_cons, eligibleAt_true h hr, if_pos rfl]
        simp only [runMinDeadlineGo, h, hr, Bool.false_eq_true, if_false, List.map_cons,
          List.foldl_cons]
        rw [ih]
        congr 1
        rw [show min m (recomputedDeadline ctx pr) =
          (if addBusinessDays pr.requestedAt
              (getAllowedBusinessDays (some bucket) ctx.config) ctx < m then
            addBusinessDays pr.requestedAt
              (getAllowedBusinessDays (some bucket) ctx.config) ctx
          else m) from by
            rw [min_def, recomputedDeadline, h]
            split <;> split <;> omega]

theorem runMinDeadlineGo_none (ctx : BusinessTimeContext) (runAt : ℤ) (l : List RunPR) :
    runMinDeadlineGo ctx runAt none l = runMinDeadlineSpec ctx runAt l := by
  induction l with
  | nil => rfl
  | cons pr rest ih =>
    rw [runMinDeadlineSpec]
    rcases h : assignBucket pr.loc ctx.config with - | bucket
    · have he : eligibleAt ctx runAt pr = false := by simp [eligibleAt, h]
      rw [List.filter_cons, he, if_neg Bool.false_ne_true]
      simp only [runMinDeadlineGo, h]
      exact ih
    · by_cases hr : reviewedBy pr runAt = true
      · have he : eligibleAt ctx runAt pr = false := by simp [eligibleAt, h, hr]
        rw [List.filter_cons, he, if_neg Bool.false_ne_true]
        simp only [runMinDeadlineGo, h, hr, if_true]
        exact ih
      · rw [Bool.not_eq_true] at hr
        rw [List.filter_cons, eligibleAt_true h hr, if_pos rfl]
        simp only [runMinDeadlineGo, h, hr, Bool.false_eq_true, if_false, List.map_cons]
        rw [runMinDeadlineGo_some, intMinqConsFoldl]
        congr 2
        rw [recomputedDeadline, h]

theorem badRunsGo_eq_spec_sum (ctx : BusinessTimeContext) (windowStart windowEnd : ℤ)
    (S : List BudgetRun) (prevRunAt : Option ℤ) :
    badRunsGo ctx windowStart windowEnd prevRunAt S =
      ((S.zip (prevRunAt :: S.map fun r => some r.runAt)).map
        fun p => badContributionSpec ctx windowStart windowEnd p.2 p.1).sum := by
  induction S generalizing prevRunAt with
  | nil => rfl
  | cons run rest ih =>
    simp only [badRunsGo, List.map_cons, List.zip_cons_cons, List.sum_cons]
    rw [← ih (some run.runAt)]
    congr 1
    rw [badContributionSpec, runMinDeadlineGo_none]
    rcases hd : runMinDeadlineSpec ctx run.runAt run.prs with - | d
    · rfl
    · simp only []
      by_cases hlt : d < run.runAt
      · rw [if_pos hlt, if_pos hlt]
        have hoe : (if windowEnd < run.runAt then windowEnd else run.runAt) =
            min run.runAt windowEnd := by
          rw [min_def]; split <;> split <;> omega
        rcases prevRunAt with - | p
        · have hos : (if d < windowStart then windowStart else d) =
              max (max ((none : Option ℤ).getD d) d) windowStart := by
            simp only [Option.getD_none]
            rw [max_def, max_def]; split <;> split <;> split <;> omega
          rw [hos, hoe]
        · have hos : (if (if d < p then p else d) < windowStart then windowStart
              else if d < p then p else d) =
              max (max ((some p).getD d) d) windowStart := by
            simp only [Option.getD_some]
            rw [max_def, max_def]
            split <;> split <;> split <;> split <;> omega
          rw [hos, hoe]
      · rw [if_neg hlt, if_neg hlt]

/-- Claim C2: `computeBadMinutesInWindow` equals the documented sum — over the
in-window snapshots sorted ascending by `runAt`, of the business-minute length
of `[max(prevRunAt, d), runAt)` clipped to the window (with `[d, runAt)` for
the first snapshot), where `d` is the minimum recomputed deadline among the
snapshot's non-excluded, still-unresolved items, counting a snapshot only when
`d` exists and `d < runAt`. -/
theorem computeBadMinutesInWindow_eq_spec (budgetRuns : List BudgetRun)
    (windowStart windowEnd : ℤ) (ctx : BusinessTimeContext) :
    computeBadMinutesInWindow budgetRuns windowStart windowEnd ctx =
      badMinutesSpec budgetRuns windowStart windowEnd ctx :=
  badRunsGo_eq_spec_sum ctx windowStart windowEnd _ none

/-! ## Claim C10: termination of the search loops -/

theorem tzDay_add_mul_1440 (t : ℤ) (k : ℕ) (bh : BusinessHours) :
    tzDay (t + 1440 * k) bh = tzDay t bh + k := by
  unfold tzDay
  omega

theorem utcDay_add_mul_1440 (t : ℤ) (k : ℕ) : utcDay (t + 1440 * k) = utcDay t + k := by
  unfold utcDay
  omega

theorem dayOfWeek_range (d : ℤ) : 1 ≤ dayOfWeek d ∧ dayOfWeek d ≤ 7 := by
  unfold dayOfWeek
  split <;> omega

theorem exists_dow_in_window (w a : ℤ) (h1 : 1 ≤ w) (h7 : w ≤ 7) :
    ∃ d, a < d ∧ d ≤ a + 7 ∧ dayOfWeek d = w := by
  refine ⟨a + 1 + (w - (a + 5)) % 7, by omega, by omega, ?_⟩
  unfold dayOfWeek
  split <;> omega

theorem le_foldl_max (l : List ℤ) (i : ℤ) :
    i ≤ l.foldl max i ∧ ∀ x ∈ l, x ≤ l.foldl max i := by
  induction l generalizing i with
  | nil => exact ⟨le_refl i, by simp⟩
  | cons a l ih =>
    obtain ⟨h1, h2⟩ := ih (max i a)
    refine ⟨le_trans (le_max_left i a) h1, ?_⟩
    intro x hx
    rcases List.mem_cons.mp hx with h | h
    · subst h
      exact le_trans (le_max_right i x) h1
    · exact h2 x h

/-- One qualifying civil-day step exists beyond every bound: with any genuine
business weekday `w` configured, day-steps from `cur` keep meeting days that
pass both checks of the `addBusinessDays` loop, because holidays and PTO are
finite. -/
theorem exists_qual_step_beyond (ctx : BusinessTimeContext) (cur : ℤ) (w : ℤ)
    (hw : w ∈ ctx.config.businessDays) (h1 : 1 ≤ w) (h7 : w ≤ 7) (b : ℕ) :
    ∃ k : ℕ, b < k ∧
      (isBusinessDay (cur + 1440 * k) ctx && !isPTO (cur + 1440 * k) ctx.ptoIntervals) = true := by
  set bh := ctx.config.businessHours with hbh
  set H := ctx.holidays.foldl max 0 with hH
  set P := (ctx.ptoIntervals.map PTOInterval.stop).foldl max 0 with hP
  set A : ℤ := max (b : ℤ) (max (H - tzDay cur bh) (P - utcDay cur)) with hA
  obtain ⟨d, hd1, hd2, hdw⟩ := exists_dow_in_window w (tzDay cur bh + A) h1 h7
  have hdpos : 0 ≤ d - tzDay cur bh := by
    have : (0 : ℤ) ≤ A := le_trans (by positivity) (le_max_left _ _)
    omega
  refine ⟨(d - tzDay cur bh).toNat, by omega, ?_⟩
  have hk : ((d - tzDay cur bh).toNat : ℤ) = d - tzDay cur bh := Int.toNat_of_nonneg hdpos
  have htz : tzDay (cur + 1440 * (d - tzDay cur bh).toNat) bh = d := by
    rw [tzDay_add_mul_1440, hk]
    omega
  have hutc : utcDay (cur + 1440 * (d - tzDay cur bh).toNat) = utcDay cur + (d - tzDay cur bh) := by
    rw [utcDay_add_mul_1440, hk]
  have hbd : isBusinessDay (cur + 1440 * (d - tzDay cur bh).toNat) ctx = true := by
    unfold isBusinessDay
    rw [← hbh, htz, hdw]
    have hcont : ctx.config.businessDays.contains w = true := by simpa using hw
    have hhol : isHoliday d ctx.holidays = false := by
      unfold isHoliday
      by_contra hcd
      rw [Bool.not_eq_false] at hcd
      have hmem : d ∈ ctx.holidays := by simpa using hcd
      have := (le_foldl_max ctx.holidays 0).2 d hmem
      omega
    rw [hcont, hhol]
    rfl
  have hpto : isPTO (cur + 1440 * (d - tzDay cur bh).toNat) ctx.ptoIntervals = false := by
    unfold isPTO
    simp only [List.any_eq_false]
    intro pto hmem
    have hstop : pto.stop ≤ P := by
      exact (le_foldl_max _ 0).2 pto.stop (List.mem_map_of_mem PTOInterval.stop hmem)
    rw [hutc]
    simp only [Bool.and_eq_true, decide_eq_true_eq]
    intro habs
    omega
  rw [hbd, hpto]
  rfl

/-- Qualifying-step counter for the first `n` civil-day steps after `cur`
(what `daysAdded` gains from `n` iterations of the `addBusinessDays` loop). -/
def countQualDays (ctx : BusinessTimeContext) (cur : ℤ) : ℕ → ℕ
  | 0 => 0
  | n + 1 =>
    (if isBusinessDay (cur + 1440) ctx && !isPTO (cur + 1440) ctx.ptoIntervals then 1 else 0) +
      countQualDays ctx (cur + 1440) n

theorem countQualDays_succ (ctx : BusinessTimeContext) (cur : ℤ) (n : ℕ) :
    countQualDays ctx cur (n + 1) =
      countQualDays ctx cur n +
        (if isBusinessDay (cur + 1440 * ((n : ℤ) + 1)) ctx &&
            !isPTO (cur + 1440 * ((n : ℤ) + 1)) ctx.ptoIntervals then 1 else 0) := by
  induction n generalizing cur with
  | zero =>
    simp only [countQualDays]
    norm_num
  | succ n ih =>
    rw [countQualDays, ih (cur + 1440), countQualDays]
    have harith : cur + 1440 + 1440 * ((n : ℤ) + 1) = cur + 1440 * ((n : ℤ) + 1 + 1) := by ring
    rw [harith]
    push_cast
    ring_nf

theorem countQualDays_mono (ctx : BusinessTimeContext) (cur : ℤ) {m n : ℕ} (h : m ≤ n) :
    countQualDays ctx cur m ≤ countQualDays ctx cur n := by
  induction n with
  | zero =>
    rw [Nat.le_zero.mp h]
  | succ n ih =>
    rcases Nat.le_succ_iff.mp h with h | h
    · calc countQualDays ctx cur m ≤ countQualDays ctx cur n := ih h
        _ ≤ _ := by rw [countQualDays_succ]; omega
    · rw [h]

theorem exists_fuel_countQualDays (ctx : BusinessTimeContext) (cur : ℤ) (w : ℤ)
    (hw : w ∈ ctx.config.businessDays) (h1 : 1 ≤ w) (h7 : w ≤ 7) (n : ℕ) :
    ∃ fuel, n ≤ countQualDays ctx cur fuel := by
  induction n with
  | zero => exact ⟨0, Nat.zero_le _⟩
  | succ n ih =>
    obtain ⟨F, hF⟩ := ih
    obtain ⟨k, hkF, hkQ⟩ := exists_qual_step_beyond ctx cur w hw h1 h7 F
    refine ⟨k, ?_⟩
    obtain ⟨k', rfl⟩ : ∃ k', k = k' + 1 := ⟨k - 1, by omega⟩
    rw [countQualDays_succ]
    have hcast : ((k' : ℤ) + 1) = ((k' + 1 : ℕ) : ℤ) := by push_cast; ring
    rw [hcast, hkQ, if_pos rfl]
    have : countQualDays ctx cur F ≤ countQualDays ctx cur k' :=
      countQualDays_mono ctx cur (by omega)
    omega

theorem addBusinessDaysGo_succeeds (ctx : BusinessTimeContext) (q : ℚ) :
    ∀ (fuel : ℕ) (cur : ℤ) (added : ℕ),
      ⌈q⌉₊ ≤ added + countQualDays ctx cur fuel →
      ∃ t, addBusinessDaysGo ctx q fuel cur added = some t := by
  intro fuel
  induction fuel with
  | zero =>
    intro cur added h
    simp only [countQualDays, Nat.add_zero] at h
    refine ⟨cur, ?_⟩
    simp only [addBusinessDaysGo]
    rw [if_neg (not_lt.mpr (Nat.ceil_le.mp h))]
  | succ fuel ih =>
    intro cur added h
    by_cases hg : (added : ℚ) < q
    · simp only [countQualDays] at h
      by_cases hQ : (isBusinessDay (cur + 1440) ctx && !isPTO (cur + 1440) ctx.ptoIntervals) = true
      · rw [hQ, if_pos rfl] at h
        obtain ⟨t, ht⟩ := ih (cur + 1440) (added + 1) (by omega)
        refine ⟨t, ?_⟩
        simp only [addBusinessDaysGo]
        rw [if_pos hg, if_pos hQ]
        exact ht
      · rw [Bool.not_eq_true] at hQ
        rw [hQ] at h
        simp only [Bool.false_eq_true, if_false] at h
        obtain ⟨t, ht⟩ := ih (cur + 1440) added (by omega)
        refine ⟨t, ?_⟩
        simp only [addBusinessDaysGo]
        rw [if_pos hg, if_neg (by rw [hQ]; exact Bool.false_ne_true)]
        exact ht
    · refine ⟨cur, ?_⟩
      simp only [addBusinessDaysGo]
      rw [if_neg hg]

theorem addBusinessDaysGo_some_imp (ctx : BusinessTimeContext) (q : ℚ) :
    ∀ (fuel : ℕ) (cur : ℤ) (added : ℕ) (t : ℤ),
      addBusinessDaysGo ctx q fuel cur added = some t →
      q ≤ (added : ℚ) ∨
        ∃ k : ℕ, 1 ≤ k ∧
          (isBusinessDay (cur + 1440 * k) ctx &&
            !isPTO (cur + 1440 * k) ctx.ptoIntervals) = true := by
  intro fuel
  induction fuel with
  | zero =>
    intro cur added t h
    by_cases hg : (added : ℚ) < q
    · simp only [addBusinessDaysGo, if_pos hg] at h
      exact Option.noConfusion h
    · exact Or.inl (not_lt.mp hg)
  | succ fuel ih =>
    intro cur added t h
    by_cases hg : (added : ℚ) < q
    · simp only [addBusinessDaysGo, if_pos hg] at h
      by_cases hQ : (isBusinessDay (cur + 1440) ctx && !isPTO (cur + 1440) ctx.ptoIntervals) = true
      · refine Or.inr ⟨1, le_refl 1, ?_⟩
        have harith : cur + 1440 * ((1 : ℕ) : ℤ) = cur + 1440 := by push_cast; ring
        rw [harith]
        exact hQ
      · rw [if_neg hQ] at h
        rcases ih (cur + 1440) added t h with hle | ⟨k, hk1, hkQ⟩
        · exact absurd hle (not_le.mpr hg)
        · refine Or.inr ⟨k + 1, by omega, ?_⟩
          have harith : cur + 1440 * ((k + 1 : ℕ) : ℤ) = cur + 1440 + 1440 * (k : ℤ) := by
            push_cast; ring
          rw [harith]
          exact hkQ
    · exact Or.inl (not_lt.mp hg)

theorem gnbtGo_reaches (ctx : BusinessTimeContext) :
    ∀ (fuel : ℕ) (cur : ℤ),
      (∃ j : ℕ, j ≤ fuel ∧ isBusinessMinute (cur + j) ctx = true) →
      ∃ t, getNextBusinessTimeGo ctx fuel cur = some t := by
  intro fuel
  induction fuel with
  | zero =>
    rintro cur ⟨j, hj, hb⟩
    have hj0 : j = 0 := Nat.le_zero.mp hj
    subst hj0
    rw [show cur + ((0 : ℕ) : ℤ) = cur by push_cast; ring] at hb
    exact ⟨cur, by simp only [getNextBusinessTimeGo]; rw [if_pos hb]⟩
  | succ fuel ih =>
    rintro cur ⟨j, hj, hb⟩
    by_cases hc : isBusinessMinute cur ctx = true
    · exact ⟨cur, by simp only [getNextBusinessTimeGo]; rw [if_pos hc]⟩
    · have hj0 : j ≠ 0 := by
        intro h0
        subst h0
        rw [show cur + ((0 : ℕ) : ℤ) = cur by push_cast; ring] at hb
        exact hc hb
      obtain ⟨t, ht⟩ := ih (cur + 1)
        ⟨j - 1, by omega, by
          rw [show cur + 1 + ((j - 1 : ℕ) : ℤ) = cur + (j : ℤ) by
            have : (1 : ℕ) ≤ j := by omega
            push_cast [this]; ring]
          exact hb⟩
      exact ⟨t, by simp only [getNextBusinessTimeGo]; rw [if_neg hc]; exact ht⟩

theorem gnbtGo_some_imp (ctx : BusinessTimeContext) :
    ∀ (fuel : ℕ) (cur t : ℤ),
      getNextBusinessTimeGo ctx fuel cur = some t →
      ∃ j : ℕ, isBusinessMinute (cur + j) ctx = true := by
  intro fuel
  induction fuel with
  | zero =>
    intro cur t h
    by_cases hc : isBusinessMinute cur ctx = true
    · exact ⟨0, by rw [show cur + ((0 : ℕ) : ℤ) = cur by push_cast; ring]; exact hc⟩
    · simp only [getNextBusinessTimeGo, if_neg hc] at h
      exact Option.noConfusion h
  | succ fuel ih =>
    intro cur t h
    by_cases hc : isBusinessMinute cur ctx = true
    · exact ⟨0, by rw [show cur + ((0 : ℕ) : ℤ) = cur by push_cast; ring]; exact hc⟩
    · simp only [getNextBusinessTimeGo, if_neg hc] at h
      obtain ⟨j, hj⟩ := ih (cur + 1) t h
      refine ⟨j + 1, ?_⟩
      rw [show cur + ((j + 1 : ℕ) : ℤ) = cur + 1 + (j : ℤ) by push_cast; ring]
      exact hj

theorem addBusinessDaysGo_empty (ctx : BusinessTimeContext)
    (hdays : ctx.config.businessDays = []) (q : ℚ) :
    ∀ (fuel : ℕ) (cur : ℤ) (added : ℕ), (added : ℚ) < q →
      addBusinessDaysGo ctx q fuel cur added = none := by
  intro fuel
  induction fuel with
  | zero =>
    intro cur added hg
    simp only [addBusinessDaysGo]
    rw [if_pos hg]
  | succ fuel ih =>
    intro cur added hg
    have hbd : isBusinessDay (cur + 1440) ctx = false := by
      simp [isBusinessDay, hdays]
    simp only [addBusinessDaysGo]
    rw [if_pos hg, if_neg (by rw [hbd]; simp)]
    exact ih (cur + 1440) added hg

theorem gnbtGo_empty (ctx : BusinessTimeContext) (hdays : ctx.config.businessDays = []) :
    ∀ (fuel : ℕ) (cur : ℤ), getNextBusinessTimeGo ctx fuel cur = none := by
  have hb : ∀ t : ℤ, isBusinessMinute t ctx = false := by
    intro t
    simp [isBusinessMinute, isBusinessDay, hdays]
  intro fuel
  induction fuel with
  | zero =>
    intro cur
    simp only [getNextBusinessTimeGo]
    rw [if_neg (by rw [hb]; simp)]
  | succ fuel ih =>
    intro cur
    simp only [getNextBusinessTimeGo]
    rw [if_neg (by rw [hb]; simp)]
    exact ih (cur + 1)

theorem exists_business_minute (ctx : BusinessTimeContext) (w : ℤ)
    (hw : w ∈ ctx.config.businessDays) (h1 : 1 ≤ w) (h7 : w ≤ 7)
    (hs0 : 0 ≤ ctx.config.businessHours.start)
    (hse : ctx.config.businessHours.start < ctx.config.businessHours.endHour)
    (h24 : ctx.config.businessHours.endHour ≤ 24) (fromT : ℤ) :
    ∃ m : ℤ, fromT < m ∧ isBusinessMinute m ctx = true := by
  obtain ⟨d, hd1, hd2, hdw⟩ := exists_dow_in_window w
    (max (tzDay fromT ctx.config.businessHours)
      (max (ctx.holidays.foldl max 0)
        ((ctx.ptoIntervals.map PTOInterval.stop).foldl max 0 -
          (ctx.config.businessHours.tzOffset + ctx.config.businessHours.start * 60) / 1440)))
    h1 h7
  have hdf : tzDay fromT ctx.config.businessHours < d :=
    lt_of_le_of_lt (le_max_left _ _) hd1
  have hdH : ctx.holidays.foldl max 0 < d :=
    lt_of_le_of_lt (le_trans (le_max_left _ _) (le_max_right _ _)) hd1
  have hdP : (ctx.ptoIntervals.map PTOInterval.stop).foldl max 0 -
      (ctx.config.businessHours.tzOffset + ctx.config.businessHours.start * 60) / 1440 < d :=
    lt_of_le_of_lt (le_trans (le_max_right _ _) (le_max_right _ _)) hd1
  have hstart24 : ctx.config.businessHours.start < 24 := by omega
  refine ⟨d * 1440 + ctx.config.businessHours.tzOffset +
    ctx.config.businessHours.start * 60, ?_, ?_⟩
  · have hto : fromT - ctx.config.businessHours.tzOffset <
        1440 * tzDay fromT ctx.config.businessHours + 1440 := by
      unfold tzDay
      omega
    omega
  · have htz : tzDay (d * 1440 + ctx.config.businessHours.tzOffset +
        ctx.config.businessHours.start * 60) ctx.config.businessHours = d := by
      unfold tzDay
      omega
    have hhour : tzHour (d * 1440 + ctx.config.businessHours.tzOffset +
        ctx.config.businessHours.start * 60) ctx.config.businessHours =
        ctx.config.businessHours.start := by
      unfold tzHour tzTimeOfDay
      omega
    have hutc : utcDay (d * 1440 + ctx.config.businessHours.tzOffset +
        ctx.config.businessHours.start * 60) =
        d + (ctx.config.businessHours.tzOffset + ctx.config.businessHours.start * 60) / 1440 := by
      unfold utcDay
      omega
    have hbd : isBusinessDay (d * 1440 + ctx.config.businessHours.tzOffset +
        ctx.config.businessHours.start * 60) ctx = true := by
      unfold isBusinessDay
      rw [htz, hdw]
      have hcont : ctx.config.businessDays.contains w = true := by simpa using hw
      have hhol : isHoliday d ctx.holidays = false := by
        unfold isHoliday
        by_contra hcd
        rw [Bool.not_eq_false] at hcd
        have hmem : d ∈ ctx.holidays := by simpa using hcd
        have := (le_foldl_max ctx.holidays 0).2 d hmem
        omega
      rw [hcont, hhol]
      rfl
    have hpto : isPTO (d * 1440 + ctx.config.businessHours.tzOffset +
        ctx.config.businessHours.start * 60) ctx.ptoIntervals = false := by
      unfold isPTO
      simp only [List.any_eq_false]
      intro pto hmem
      have hstop := (le_foldl_max (ctx.ptoIntervals.map PTOInterval.stop) 0).2 pto.stop
        (List.mem_map_of_mem PTOInterval.stop hmem)
      rw [hutc]
      simp only [Bool.and_eq_true, decide_eq_true_eq]
      intro habs
      omega
    unfold isBusinessMinute
    rw [hbd, hpto, hhour, decide_eq_true (le_refl ctx.config.businessHours.start),
      decide_eq_true hse]
    rfl

theorem gnbt_terminates_of_minute (ctx : BusinessTimeContext) (start : ℤ)
    (h : ∃ m : ℤ, start < m ∧ isBusinessMinute m ctx = true) :
    ∃ fuel t, getNextBusinessTime start ctx fuel = some t := by
  obtain ⟨m, hm1, hm2⟩ := h
  refine ⟨(m - (start + 1)).toNat, ?_⟩
  unfold getNextBusinessTime
  apply gnbtGo_reaches
  refine ⟨(m - (start + 1)).toNat, le_refl _, ?_⟩
  rw [show start + 1 + ((m - (start + 1)).toNat : ℤ) = m from by omega]
  exact hm2

/-- Claim C10 (amended): the `addBusinessDays` loop (for every positive count)
and the `getNextBusinessTime` loop terminate precisely when some strictly
later calendar day-step (respectively some strictly later minute) qualifies as
business time; this precondition always holds when some *valid* weekday (1-7)
is configured — for the minute search additionally requiring well-formed
business hours `0 ≤ start < end ≤ 24` — and with an empty business-weekday
set both loops run forever: no internal guard bounds the search. -/
theorem businessLoops_termination (ctx : BusinessTimeContext) (start : ℤ) (q : ℚ)
    (hq : 0 < q) :
    ((∃ k : ℕ, 1 ≤ k ∧ (isBusinessDay (start + 1440 * k) ctx &&
        !isPTO (start + 1440 * k) ctx.ptoIntervals) = true) ↔
      ∃ fuel t, addBusinessDaysGo ctx q fuel start 0 = some t) ∧
    ((∃ m : ℤ, start < m ∧ isBusinessMinute m ctx = true) ↔
      ∃ fuel t, getNextBusinessTime start ctx fuel = some t) ∧
    ((∃ w ∈ ctx.config.businessDays, 1 ≤ w ∧ w ≤ 7) →
      ∃ fuel t, addBusinessDaysGo ctx q fuel start 0 = some t) ∧
    ((∃ w ∈ ctx.config.businessDays, 1 ≤ w ∧ w ≤ 7) →
      0 ≤ ctx.config.businessHours.start →
      ctx.config.businessHours.start < ctx.config.businessHours.endHour →
      ctx.config.businessHours.endHour ≤ 24 →
      ∃ fuel t, getNextBusinessTime start ctx fuel = some t) ∧
    (ctx.config.businessDays = [] →
      (∀ fuel, addBusinessDaysGo ctx q fuel start 0 = none) ∧
      ∀ fuel, getNextBusinessTime start ctx fuel = none) := by
  have haddTerm : ∀ w ∈ ctx.config.businessDays, 1 ≤ w → w ≤ 7 →
      ∃ fuel t, addBusinessDaysGo ctx q fuel start 0 = some t := by
    intro w hw h1 h7
    obtain ⟨fuel, hfuel⟩ := exists_fuel_countQualDays ctx start w hw h1 h7 ⌈q⌉₊
    obtain ⟨t, ht⟩ := addBusinessDaysGo_succeeds ctx q fuel start 0 (by omega)
    exact ⟨fuel, t, ht⟩
  refine ⟨⟨?_, ?_⟩, ⟨fun h => gnbt_terminates_of_minute ctx start h, ?_⟩, ?_, ?_, ?_⟩
  · rintro ⟨k, hk1, hkQ⟩
    simp only [Bool.and_eq_true] at hkQ
    have hbd := hkQ.1
    unfold isBusinessDay at hbd
    simp only [Bool.and_eq_true] at hbd
    have hwmem : dayOfWeek (tzDay (start + 1440 * k) ctx.config.businessHours) ∈
        ctx.config.businessDays := by simpa using hbd.1
    obtain ⟨hr1, hr7⟩ := dayOfWeek_range (tzDay (start + 1440 * k) ctx.config.businessHours)
    exact haddTerm _ hwmem hr1 hr7
  · rintro ⟨fuel, t, ht⟩
    rcases addBusinessDaysGo_some_imp ctx q fuel start 0 t ht with hle | hret
    · rw [Nat.cast_zero] at hle
      exact absurd hq (not_lt.mpr hle)
    · exact hret
  · rintro ⟨fuel, t, ht⟩
    unfold getNextBusinessTime at ht
    obtain ⟨j, hj⟩ := gnbtGo_some_imp ctx fuel (start + 1) t ht
    exact ⟨start + 1 + j, by omega, hj⟩
  · rintro ⟨w, hw, h1, h7⟩
    exact haddTerm w hw h1 h7
  · rintro ⟨w, hw, h1, h7⟩ hs0 hse h24
    exact gnbt_terminates_of_minute ctx start
      (exists_business_minute ctx w hw h1 h7 hs0 hse h24 start)
  · intro hdays
    refine ⟨fun fuel => addBusinessDaysGo_empty ctx hdays q fuel start 0 ?_,
      fun fuel => ?_⟩
    · rw [Nat.cast_zero]
      exact hq
    · unfold getNextBusinessTime
      exact gnbtGo_empty ctx hdays fuel (start + 1)

/-- Claim C10 witness: in `sampleCtx` (Mon-Fri, 9-17) with count 1 starting
Monday 10:00, both loops terminate: the theorem's sufficient conditions hold
with the valid weekday 1 and the well-formed 9 < 17 ≤ 24 hours. -/
theorem businessLoops_termination_witness :
    (0 : ℚ) < 1 ∧
      (∃ fuel t, addBusinessDaysGo sampleCtx 1 fuel 6360 0 = some t) ∧
      ∃ fuel t, getNextBusinessTime 6360 sampleCtx fuel = some t := by
  have h := businessLoops_termination sampleCtx 6360 1 (by norm_num)
  refine ⟨by norm_num, ?_, ?_⟩
  · exact h.2.2.1 ⟨1, by decide, by norm_num, by norm_num⟩
  · exact h.2.2.2.1 ⟨1, by decide, by norm_num, by norm_num⟩ (by decide) (by decide) (by decide)

/-- Claim C10 (counterexample to the claim as stated): a context with the
*non-empty* weekday set Mon-Fri, no holidays and no PTO — but a degenerate
business-hours window (start = end = 9) — makes `getNextBusinessTime` loop
forever: the claim's assertion that a non-empty weekday set with finite
holiday/PTO sets always yields termination is false. -/
theorem getNextBusinessTime_nonempty_weekdays_stuck :
    degenerateHoursCtx.config.businessDays = [1, 2, 3, 4, 5] ∧
    degenerateHoursCtx.holidays = [] ∧
    degenerateHoursCtx.ptoIntervals = [] ∧
    ¬ ∃ fuel t, getNextBusinessTime 6360 degenerateHoursCtx fuel = some t := by
  refine ⟨rfl, rfl, rfl, ?_⟩
  rintro ⟨fuel, t, ht⟩
  unfold getNextBusinessTime at ht
  obtain ⟨j, hj⟩ := gnbtGo_some_imp degenerateHoursCtx fuel (6360 + 1) t ht
  have hb : ∀ m : ℤ, isBusinessMinute m degenerateHoursCtx = false := by
    intro m
    apply Bool.eq_false_iff.mpr
    intro habs
    rw [isBusinessMinute] at habs
    simp only [Bool.and_eq_true, decide_eq_true_eq] at habs
    have h1 := habs.1.1.2
    have h2 := habs.1.2
    have hs : degenerateHoursCtx.config.businessHours.start = 9 := rfl
    have he : degenerateHoursCtx.config.businessHours.endHour = 9 := rfl
    rw [hs] at h1
    rw [he] at h2
    omega
  rw [hb] at hj
  exact Bool.false_ne_true hj

/-! ## Claim C1: the day decomposition against the per-minute reference -/

/-- The claim's day-level qualification: configured weekday, not a holiday,
and not PTO — the PTO test given by a day predicate `pfn` on the local
calendar day (the hypothesis `∀ t, isPTO t = pfn (tzDay t)` below says the
source's UTC-keyed PTO check agrees with it). -/
def dayQualifies (pfn : ℤ → Bool) (ctx : BusinessTimeContext) (d : ℤ) : Prop :=
  dayOfWeek d ∈ ctx.config.businessDays ∧ d ∉ ctx.holidays ∧ pfn d = false

instance (pfn : ℤ → Bool) (ctx : BusinessTimeContext) :
    DecidablePred (dayQualifies pfn ctx) := fun d => by
  unfold dayQualifies
  infer_instance

/-- The claim's minute-level qualification: qualifying calendar day and local
time of day within `[businessStart, businessEnd)`. -/
def qualifiesSpec (pfn : ℤ → Bool) (ctx : BusinessTimeContext) (m : ℤ) : Prop :=
  dayQualifies pfn ctx (tzDay m ctx.config.businessHours) ∧
    ctx.config.businessHours.start * 60 ≤ tzTimeOfDay m ctx.config.businessHours ∧
    tzTimeOfDay m ctx.config.businessHours < ctx.config.businessHours.endHour * 60

instance (pfn : ℤ → Bool) (ctx : BusinessTimeContext) :
    DecidablePred (qualifiesSpec pfn ctx) := fun m => by
  unfold qualifiesSpec
  infer_instance

/-- The number of whole minutes of `[start, stop)` that qualify as business
minutes, per the claim's intrinsic description. -/
def businessMinuteCount (pfn : ℤ → Bool) (ctx : BusinessTimeContext) (start stop : ℤ) : ℕ :=
  ((Finset.Ico start stop).filter (qualifiesSpec pfn ctx)).card

theorem dayStep_iff_dayQualifies {pfn : ℤ → Bool} {ctx : BusinessTimeContext}
    (hpto : ∀ u : ℤ, isPTO u ctx.ptoIntervals = pfn (tzDay u ctx.config.businessHours))
    (t : ℤ) :
    (isBusinessDay t ctx && !isPTO t ctx.ptoIntervals) = true ↔
      dayQualifies pfn ctx (tzDay t ctx.config.businessHours) := by
  unfold isBusinessDay isHoliday dayQualifies
  rw [hpto t]
  simp only [Bool.and_eq_true, Bool.not_eq_true']
  constructor
  · rintro ⟨⟨h1, h2⟩, h3⟩
    exact ⟨by simpa using h1, by simpa using h2, h3⟩
  · rintro ⟨h1, h2, h3⟩
    exact ⟨⟨by simpa using h1, by simpa using h2⟩, h3⟩

theorem busMinute_iff_qualifies {pfn : ℤ → Bool} {ctx : BusinessTimeContext}
    (hpto : ∀ u : ℤ, isPTO u ctx.ptoIntervals = pfn (tzDay u ctx.config.businessHours))
    (m : ℤ) :
    isBusinessMinute m ctx = true ↔ qualifiesSpec pfn ctx m := by
  have h60 : (0 : ℤ) < 60 := by norm_num
  unfold isBusinessMinute isBusinessDay isHoliday tzHour
  unfold qualifiesSpec dayQualifies
  rw [hpto m]
  simp only [Bool.and_eq_true, Bool.not_eq_true', decide_eq_true_eq]
  constructor
  · rintro ⟨⟨⟨⟨h1, h2⟩, h3⟩, h4⟩, h5⟩
    refine ⟨⟨by simpa using h1, by simpa using h2, h5⟩, ?_, ?_⟩
    · exact (Int.le_ediv_iff_mul_le h60).mp h3
    · exact (Int.ediv_lt_iff_lt_mul h60).mp h4
  · rintro ⟨⟨h1, h2, h5⟩, h3, h4⟩
    refine ⟨⟨⟨⟨by simpa using h1, by simpa using h2⟩, ?_⟩, ?_⟩, h5⟩
    · exact (Int.le_ediv_iff_mul_le h60).mpr h3
    · exact (Int.ediv_lt_iff_lt_mul h60).mpr h4

theorem Ico_self_add_one (a : ℤ) : Finset.Ico a (a + 1) = {a} := by
  ext x
  simp only [Finset.mem_Ico, Finset.mem_singleton]
  omega

theorem filter_card_split (P : ℤ → Prop) [DecidablePred P] (a c b : ℤ) (h1 : a ≤ c)
    (h2 : c ≤ b) :
    ((Finset.Ico a b).filter P).card =
      ((Finset.Ico a c).filter P).card + ((Finset.Ico c b).filter P).card := by
  rw [← Finset.Ico_union_Ico_eq_Ico h1 h2, Finset.filter_union,
    Finset.card_union_of_disjoint
      ((Finset.Ico_disjoint_Ico_consecutive a c b).mono (Finset.filter_subset _ _)
        (Finset.filter_subset _ _))]

theorem qualifies_in_day {pfn : ℤ → Bool} {ctx : BusinessTimeContext} (D m : ℤ)
    (hlo : D * 1440 + ctx.config.businessHours.tzOffset ≤ m)
    (hhi : m < D * 1440 + 1440 + ctx.config.businessHours.tzOffset) :
    qualifiesSpec pfn ctx m ↔
      (dayQualifies pfn ctx D ∧
        D * 1440 + ctx.config.businessHours.tzOffset +
          ctx.config.businessHours.start * 60 ≤ m ∧
        m < D * 1440 + ctx.config.businessHours.tzOffset +
          ctx.config.businessHours.endHour * 60) := by
  have htzD : tzDay m ctx.config.businessHours = D := by
    unfold tzDay
    omega
  have htod : tzTimeOfDay m ctx.config.businessHours =
      m - ctx.config.businessHours.tzOffset - 1440 * D := by
    unfold tzTimeOfDay
    omega
  unfold qualifiesSpec
  rw [htzD, htod]
  constructor
  · rintro ⟨h1, h2, h3⟩
    exact ⟨h1, by omega, by omega⟩
  · rintro ⟨h1, h2, h3⟩
    exact ⟨h1, by omega, by omega⟩

theorem segment_count (pfn : ℤ → Bool) (ctx : BusinessTimeContext) (D a b : ℤ)
    (hlo : D * 1440 + ctx.config.businessHours.tzOffset ≤ a)
    (hhi : b ≤ D * 1440 + 1440 + ctx.config.businessHours.tzOffset) :
    (((Finset.Ico a b).filter (qualifiesSpec pfn ctx)).card : ℤ) =
      if dayQualifies pfn ctx D then
        max 0 (min b (D * 1440 + ctx.config.businessHours.tzOffset +
            ctx.config.businessHours.endHour * 60) -
          max a (D * 1440 + ctx.config.businessHours.tzOffset +
            ctx.config.businessHours.start * 60))
      else 0 := by
  by_cases hD : dayQualifies pfn ctx D
  · have hcongr : (Finset.Ico a b).filter (qualifiesSpec pfn ctx) =
        (Finset.Ico a b).filter (fun m => m ∈
          Finset.Ico (D * 1440 + ctx.config.businessHours.tzOffset +
              ctx.config.businessHours.start * 60)
            (D * 1440 + ctx.config.businessHours.tzOffset +
              ctx.config.businessHours.endHour * 60)) := by
      apply Finset.filter_congr
      intro m hm
      obtain ⟨hm1, hm2⟩ := Finset.mem_Ico.mp hm
      rw [qualifies_in_day D m (by omega) (by omega), Finset.mem_Ico]
      constructor
      · rintro ⟨-, h2, h3⟩
        exact ⟨h2, h3⟩
      · rintro ⟨h2, h3⟩
        exact ⟨hD, h2, h3⟩
    rw [hcongr, Finset.filter_mem_eq_inter, Finset.Ico_inter_Ico, Int.card_Ico, if_pos hD,
      Int.toNat_eq_max]
    exact max_comm _ _
  · have hempty : (Finset.Ico a b).filter (qualifiesSpec pfn ctx) = ∅ := by
      apply Finset.filter_eq_empty_iff.mpr
      intro m hm
      obtain ⟨hm1, hm2⟩ := Finset.mem_Ico.mp hm
      rw [qualifies_in_day D m (by omega) (by omega)]
      rintro ⟨h1, -⟩
      exact hD h1
    rw [hempty, if_neg hD]
    rfl

theorem tzDay_add_one_day (t : ℤ) (bh : BusinessHours) :
    tzDay (t + 1440) bh = tzDay t bh + 1 := by
  unfold tzDay
  omega

/-- `getBusinessMinutesForDay` computes exactly the qualifying-minute count of
any sub-interval `[a, b)` of its day, read through the minute-of-day
coordinates. -/
theorem getBusinessMinutesForDay_eq_count (pfn : ℤ → Bool) (ctx : BusinessTimeContext)
    (hpto : ∀ u : ℤ, isPTO u ctx.ptoIntervals = pfn (tzDay u ctx.config.businessHours))
    (t a b fromMinutes toMinutes : ℤ)
    (hlo : tzDay t ctx.config.businessHours * 1440 + ctx.config.businessHours.tzOffset ≤ a)
    (hhi : b ≤ tzDay t ctx.config.businessHours * 1440 + 1440 +
      ctx.config.businessHours.tzOffset)
    (hfrom : fromMinutes = a - (tzDay t ctx.config.businessHours * 1440 +
      ctx.config.businessHours.tzOffset))
    (hto : toMinutes = b - (tzDay t ctx.config.businessHours * 1440 +
      ctx.config.businessHours.tzOffset)) :
    getBusinessMinutesForDay t fromMinutes toMinutes ctx =
      (((Finset.Ico a b).filter (qualifiesSpec pfn ctx)).card : ℤ) := by
  rw [segment_count pfn ctx (tzDay t ctx.config.businessHours) a b hlo hhi]
  unfold getBusinessMinutesForDay
  by_cases hq : (isBusinessDay t ctx && !isPTO t ctx.ptoIntervals) = true
  · have hdq := (dayStep_iff_dayQualifies hpto t).mp hq
    rw [if_pos hdq]
    simp only [Bool.and_eq_true, Bool.not_eq_true'] at hq
    rw [hq.1, hq.2]
    simp only [Bool.not_true, Bool.false_or, Bool.false_eq_true, if_false]
    omega
  · have hdq : ¬dayQualifies pfn ctx (tzDay t ctx.config.businessHours) := fun hc =>
      hq ((dayStep_iff_dayQualifies hpto t).mpr hc)
    rw [if_neg hdq]
    rcases hbd : isBusinessDay t ctx with - | - <;>
      rcases hpt : isPTO t ctx.ptoIntervals with - | - <;>
        simp_all

theorem countMinutesGo_eq_count (pfn : ℤ → Bool) (ctx : BusinessTimeContext)
    (hpto : ∀ u : ℤ, isPTO u ctx.ptoIntervals = pfn (tzDay u ctx.config.businessHours)) :
    ∀ (n : ℕ) (count : ℕ) (cur : ℤ),
      countMinutesGo ctx count cur n = count + businessMinuteCount pfn ctx cur (cur + n) := by
  intro n
  induction n with
  | zero =>
    intro count cur
    unfold businessMinuteCount
    rw [show cur + ((0 : ℕ) : ℤ) = cur by push_cast; ring, Finset.Ico_self]
    simp [countMinutesGo]
  | succ n ih =>
    intro count cur
    simp only [countMinutesGo]
    rw [ih]
    unfold businessMinuteCount
    rw [show cur + ((n + 1 : ℕ) : ℤ) = cur + 1 + (n : ℤ) by push_cast; ring]
    rw [filter_card_split (qualifiesSpec pfn ctx) cur (cur + 1) (cur + 1 + n) (by omega)
      (by omega)]
    rw [Ico_self_add_one, Finset.filter_singleton]
    by_cases hb : isBusinessMinute cur ctx = true
    · have hq := (busMinute_iff_qualifies hpto cur).mp hb
      rw [hb, if_pos rfl, if_pos hq, Finset.card_singleton]
      omega
    · rw [Bool.not_eq_true] at hb
      have hq : ¬qualifiesSpec pfn ctx cur := fun hc => by
        have hc2 := (busMinute_iff_qualifies hpto cur).mpr hc
        rw [hb] at hc2
        exact Bool.false_ne_true hc2
      rw [hb, if_neg Bool.false_ne_true, if_neg hq, Finset.card_empty]
      omega

theorem countBusinessMinutesRef_eq_count (pfn : ℤ → Bool) (ctx : BusinessTimeContext)
    (hpto : ∀ u : ℤ, isPTO u ctx.ptoIntervals = pfn (tzDay u ctx.config.businessHours))
    (start stop : ℤ) :
    countBusinessMinutesRef start stop ctx = businessMinuteCount pfn ctx start stop := by
  unfold countBusinessMinutesRef
  by_cases h : start ≥ stop
  · rw [if_pos h]
    unfold businessMinuteCount
    rw [Finset.Ico_eq_empty (by omega)]
    simp
  · rw [if_neg h, countMinutesGo_eq_count pfn ctx hpto]
    rw [show start + (((stop - start).toNat : ℕ) : ℤ) = stop from by omega]
    exact Nat.zero_add _

theorem middleDaysGo_eq_count (pfn : ℤ → Bool) (ctx : BusinessTimeContext)
    (hpto : ∀ u : ℤ, isPTO u ctx.ptoIntervals = pfn (tzDay u ctx.config.businessHours))
    (hs0 : 0 ≤ ctx.config.businessHours.start)
    (hse : ctx.config.businessHours.start ≤ ctx.config.businessHours.endHour)
    (h24 : ctx.config.businessHours.endHour ≤ 24) :
    ∀ (n : ℕ) (count cur : ℤ),
      middleDaysGo ctx count cur n =
        count + (businessMinuteCount pfn ctx
          (tzDay cur ctx.config.businessHours * 1440 + ctx.config.businessHours.tzOffset)
          ((tzDay cur ctx.config.businessHours + n) * 1440 +
            ctx.config.businessHours.tzOffset) : ℤ) := by
  intro n
  induction n with
  | zero =>
    intro count cur
    unfold businessMinuteCount
    rw [show (tzDay cur ctx.config.businessHours + ((0 : ℕ) : ℤ)) * 1440 +
        ctx.config.businessHours.tzOffset =
        tzDay cur ctx.config.businessHours * 1440 + ctx.config.businessHours.tzOffset
      from by push_cast; ring]
    rw [Finset.Ico_self]
    simp [middleDaysGo]
  | succ n ih =>
    intro count cur
    simp only [middleDaysGo]
    rw [ih, tzDay_add_one_day]
    unfold businessMinuteCount
    rw [show ((tzDay cur ctx.config.businessHours + ((n + 1 : ℕ) : ℤ)) * 1440 +
        ctx.config.businessHours.tzOffset) =
        ((tzDay cur ctx.config.businessHours + 1 + (n : ℤ)) * 1440 +
          ctx.config.businessHours.tzOffset) from by push_cast; ring]
    rw [filter_card_split (qualifiesSpec pfn ctx)
      (tzDay cur ctx.config.businessHours * 1440 + ctx.config.businessHours.tzOffset)
      ((tzDay cur ctx.config.businessHours + 1) * 1440 + ctx.config.businessHours.tzOffset)
      ((tzDay cur ctx.config.businessHours + 1 + (n : ℤ)) * 1440 +
        ctx.config.businessHours.tzOffset)
      (by omega) (by omega)]
    have hfull : (((Finset.Ico
        (tzDay cur ctx.config.businessHours * 1440 + ctx.config.businessHours.tzOffset)
        ((tzDay cur ctx.config.businessHours + 1) * 1440 +
          ctx.config.businessHours.tzOffset)).filter (qualifiesSpec pfn ctx)).card : ℤ) =
        if dayQualifies pfn ctx (tzDay cur ctx.config.businessHours) then
          minutesPerBusinessDay ctx.config.businessHours else 0 := by
      rw [segment_count pfn ctx (tzDay cur ctx.config.businessHours) _ _ (by omega) (by omega)]
      by_cases hD : dayQualifies pfn ctx (tzDay cur ctx.config.businessHours)
      · rw [if_pos hD, if_pos hD]
        unfold minutesPerBusinessDay
        omega
      · rw [if_neg hD, if_neg hD]
    have hstep : (if isBusinessDay cur ctx && !isPTO cur ctx.ptoIntervals then
        minutesPerBusinessDay ctx.config.businessHours else 0) =
        if dayQualifies pfn ctx (tzDay cur ctx.config.businessHours) then
          minutesPerBusinessDay ctx.config.businessHours else 0 := by
      by_cases hq : (isBusinessDay cur ctx && !isPTO cur ctx.ptoIntervals) = true
      · rw [hq, if_pos rfl, if_pos ((dayStep_iff_dayQualifies hpto cur).mp hq)]
      · rw [Bool.not_eq_true] at hq
        rw [hq, if_neg Bool.false_ne_true,
          if_neg (fun hc => by
            have hc2 := (dayStep_iff_dayQualifies hpto cur).mpr hc
            rw [hq] at hc2
            exact Bool.false_ne_true hc2)]
    rw [hstep]
    push_cast [hfull]
    ring

theorem countBusinessMinutes_eq_count (pfn : ℤ → Bool) (ctx : BusinessTimeContext)
    (hpto : ∀ u : ℤ, isPTO u ctx.ptoIntervals = pfn (tzDay u ctx.config.businessHours))
    (hs0 : 0 ≤ ctx.config.businessHours.start)
    (hse : ctx.config.businessHours.start ≤ ctx.config.businessHours.endHour)
    (h24 : ctx.config.businessHours.endHour ≤ 24) (start stop : ℤ) :
    countBusinessMinutes start stop ctx = (businessMinuteCount pfn ctx start stop : ℤ) := by
  by_cases hss : start ≥ stop
  · simp only [countBusinessMinutes]
    rw [if_pos hss]
    unfold businessMinuteCount
    rw [Finset.Ico_eq_empty (by omega)]
    simp
  · simp only [countBusinessMinutes]
    rw [if_neg hss]
    by_cases hday : tzDay start ctx.config.businessHours = tzDay stop ctx.config.businessHours
    · rw [if_pos hday]
      have h1 : tzDay start ctx.config.businessHours * 1440 +
          ctx.config.businessHours.tzOffset ≤ start := by
        unfold tzDay
        omega
      have h2 : stop ≤ tzDay start ctx.config.businessHours * 1440 + 1440 +
          ctx.config.businessHours.tzOffset := by
        have hd := hday
        unfold tzDay at hd ⊢
        omega
      have hfrom : tzTimeOfDay start ctx.config.businessHours =
          start - (tzDay start ctx.config.businessHours * 1440 +
            ctx.config.businessHours.tzOffset) := by
        unfold tzTimeOfDay tzDay
        omega
      have hto : tzTimeOfDay stop ctx.config.businessHours =
          stop - (tzDay start ctx.config.businessHours * 1440 +
            ctx.config.businessHours.tzOffset) := by
        have hd := hday
        unfold tzTimeOfDay tzDay at hd ⊢
        omega
      rw [getBusinessMinutesForDay_eq_count pfn ctx hpto start start stop _ _ h1 h2 hfrom hto]
      rfl
    · rw [if_neg hday]
      have hlt : tzDay start ctx.config.businessHours < tzDay stop ctx.config.businessHours := by
        have hle : tzDay start ctx.config.businessHours ≤
            tzDay stop ctx.config.businessHours := by
          unfold tzDay
          omega
        omega
      rw [middleDaysGo_eq_count pfn ctx hpto hs0 hse h24, tzDay_add_one_day]
      rw [show (tzDay start ctx.config.businessHours + 1 +
          (((tzDay stop ctx.config.businessHours -
            (tzDay start ctx.config.businessHours + 1)).toNat : ℕ) : ℤ)) * 1440 +
          ctx.config.businessHours.tzOffset =
          tzDay stop ctx.config.businessHours * 1440 + ctx.config.businessHours.tzOffset
        from by omega]
      have hfirst := getBusinessMinutesForDay_eq_count pfn ctx hpto start start
        ((tzDay start ctx.config.businessHours + 1) * 1440 + ctx.config.businessHours.tzOffset)
        (tzTimeOfDay start ctx.config.businessHours) 1440
        (by unfold tzDay; omega) (by omega)
        (by unfold tzTimeOfDay tzDay; omega) (by omega)
      have hlast := getBusinessMinutesForDay_eq_count pfn ctx hpto stop
        (tzDay stop ctx.config.businessHours * 1440 + ctx.config.businessHours.tzOffset) stop
        0 (tzTimeOfDay stop ctx.config.businessHours)
        (by omega) (by unfold tzDay; omega)
        (by omega) (by unfold tzTimeOfDay tzDay; omega)
      rw [hfirst, hlast]
      unfold businessMinuteCount
      rw [filter_card_split (qualifiesSpec pfn ctx) start
        ((tzDay start ctx.config.businessHours + 1) * 1440 + ctx.config.businessHours.tzOffset)
        stop (by unfold tzDay; omega)
        (by have h := hlt; unfold tzDay at h ⊢; omega)]
      rw [filter_card_split (qualifiesSpec pfn ctx)
        ((tzDay start ctx.config.businessHours + 1) * 1440 + ctx.config.businessHours.tzOffset)
        (tzDay stop ctx.config.businessHours * 1440 + ctx.config.businessHours.tzOffset)
        stop (by have h := hlt; unfold tzDay at h ⊢; omega)
        (by unfold tzDay; omega)]
      push_cast
      ring

/-- Claim C1 (amended): for every context whose PTO test is a function of the
timezone-local calendar day (`∀ t, isPTO t = pfn (tzDay t)` — e.g. any context
with a zero timezone offset, or with no PTO at all) and whose business hours
are well-formed (`0 ≤ start ≤ end ≤ 24`), the day-decomposition
`countBusinessMinutes` returns 0 when `start ≥ stop` and otherwise exactly the
number of whole minutes of `[start, stop)` qualifying as business minutes
(configured weekday, not a holiday, not PTO, local time of day within
`[businessStart·60, businessEnd·60)`), and agrees with the superseded
per-minute reference implementation. -/
theorem countBusinessMinutes_decomposition_correct (ctx : BusinessTimeContext)
    (pfn : ℤ → Bool) (start stop : ℤ)
    (hpto : ∀ u : ℤ, isPTO u ctx.ptoIntervals = pfn (tzDay u ctx.config.businessHours))
    (hs0 : 0 ≤ ctx.config.businessHours.start)
    (hse : ctx.config.businessHours.start ≤ ctx.config.businessHours.endHour)
    (h24 : ctx.config.businessHours.endHour ≤ 24) :
    countBusinessMinutes start stop ctx = (countBusinessMinutesRef start stop ctx : ℤ) ∧
    countBusinessMinutesRef start stop ctx = businessMinuteCount pfn ctx start stop ∧
    (stop ≤ start → countBusinessMinutes start stop ctx = 0) := by
  have h1 := countBusinessMinutes_eq_count pfn ctx hpto hs0 hse h24 start stop
  have h2 := countBusinessMinutesRef_eq_count pfn ctx hpto start stop
  refine ⟨by rw [h1, h2], h2, fun h => ?_⟩
  simp only [countBusinessMinutes]
  rw [if_pos (by omega)]

/-- Claim C1 witness: Monday 10:00 (minute 6360) to Monday 12:00 (minute
6480) under 9-17 Mon-Fri, no holidays and no PTO — the theorem's hypotheses
hold with the constant-false PTO day predicate; both implementations give 120
business minutes. -/
theorem countBusinessMinutes_decomposition_correct_witness :
    countBusinessMinutes 6360 6480 sampleCtx =
      (countBusinessMinutesRef 6360 6480 sampleCtx : ℤ) ∧
    countBusinessMinutes 6360 6480 sampleCtx = 120 := by
  have h := countBusinessMinutes_decomposition_correct sampleCtx (fun _ => false) 6360 6480
    (fun u => rfl) (by decide) (by decide) (by decide)
  exact ⟨h.1, by decide⟩

/-- `sampleCtx` shifted to the America/Los_Angeles offset (`toTimezone`
subtracts 480 minutes), with a single PTO day on (UTC) day 5. -/
def ptoStraddleCtx : BusinessTimeContext :=
  { config := { sampleConfig with
      businessHours := { start := 9, endHour := 17, tzOffset := 480 } }
    holidays := []
    ptoIntervals := [{ start := 5, stop := 5 }] }

/-- Mon-Fri context with inverted business hours (end 5 < start 9). -/
def badHoursCtx : BusinessTimeContext :=
  { config := { sampleConfig with
      businessHours := { start := 9, endHour := 5, tzOffset := 0 } }
    holidays := []
    ptoIntervals := [] }

set_option maxRecDepth 20000 in
/-- Claim C1 (counterexample to the claim as stated): the decomposition and
the per-minute reference disagree, so they cannot both equal the claimed
minute count.  (1) With the Los-Angeles offset and a PTO day on (UTC) day 5,
over Monday 15:00-17:00 local time (minutes 7140-7260) the decomposition
checks PTO once per *local calendar day* and counts 120, while the reference
excludes minute-by-minute keyed on the *UTC* day and counts only 60.  (2) With
inverted business hours (end 5 < start 9), over Monday 23:59 to Wednesday
00:01 (minutes 7199-8641) the decomposition returns -240 — the unclamped
middle-day term goes negative — while the reference counts 0. -/
theorem countBusinessMinutes_decomposition_deviation :
    (countBusinessMinutes 7140 7260 ptoStraddleCtx = 120 ∧
      countBusinessMinutesRef 7140 7260 ptoStraddleCtx = 60) ∧
    (countBusinessMinutes 7199 8641 badHoursCtx = -240 ∧
      countBusinessMinutesRef 7199 8641 badHoursCtx = 0) := by
  refine ⟨⟨by decide, by decide⟩, ⟨by decide, ?_⟩⟩
  rw [countBusinessMinutesRef_eq_count (fun _ => false) badHoursCtx (fun u => rfl)]
  unfold businessMinuteCount
  rw [Finset.filter_eq_empty_iff.mpr ?_, Finset.card_empty]
  intro m hm hq
  obtain ⟨-, hlo, hhi⟩ := hq
  have hs : badHoursCtx.config.businessHours.start = 9 := rfl
  have he : badHoursCtx.config.businessHours.endHour = 5 := rfl
  rw [hs] at hlo
  rw [he] at hhi
  omega
